import Mathlib

/-!
# gofpdi: the PDF object-model parser (`contrib/read/gofpdi/parser.go`)

A shallow embedding of `parser.go`.  Conventions of the embedding:

* A Go interface value of type `Value` that may be `nil` is an `Option Value`.
* Go `int`/`int64` are 64-bit two's complement; integers are `Int`, `Atoi`
  clamps to that range the way `strconv` does, and `start++` wraps.
* `float64` arithmetic of the page boxes is exact arithmetic over `ℚ`.
* Methods of `*PDFParser` take the parser (which holds the reader state) and
  return an `Outcome`: a normal return with the new parser, a Go run-time
  panic with the parser as it was at that moment, or exhaustion of the fuel
  that bounds recursion and loops.
* The token reader (`PDFTokenReader`) is not part of `parser.go`; the parser
  is parameterised by its operations, and `ByteReader` is one concrete reader.
-/

set_option autoImplicit false

namespace Gofpdi

/-! ## Value model -/

/-- ObjectRef is an indirect reference: object number and generation. -/
structure ObjectRef where
  Obj : Int
  Gen : Int
deriving DecidableEq

/-- Value is the closed set of values `readValue` produces, plus the object
declaration that `resolveObject` also accepts as input. -/
inductive Value where
  | Null
  | Boolean (b : Bool)
  | Numeric (n : Int)
  | Real (r : ℚ)
  | String (bytes : String)
  | Hex (bytes : String)
  | Array (items : List (Option Value))
  | Dictionary (entries : List (String × Value))
  | ObjectRef (ref : ObjectRef)
  | Token (t : String)
  | ObjectDeclaration (Obj Gen : Int) (Values : List Value)

/-- Dictionary is a Go `map[string]Value`, kept as an association list that is
read with `List.lookup` and written with `mapSet`. -/
abbrev Dictionary := List (String × Value)

/-- ObjectDeclaration is one decoded indirect object. -/
structure ObjectDeclaration where
  Obj : Int
  Gen : Int
  Values : List Value

/-- The type tags returned by `Value.Type()`. -/
inductive ValueType where
  | typeNull | typeBoolean | typeNumeric | typeReal | typeString | typeHex
  | typeArray | typeDictionary | typeObjRef | typeToken | typeObjDecl
deriving DecidableEq

/-- Modelled from the spec: the `Type()` method of the value variants (their
declarations are not in `parser.go`); one tag per variant. -/
def valueType : Value → ValueType
  | .Null => .typeNull
  | .Boolean _ => .typeBoolean
  | .Numeric _ => .typeNumeric
  | .Real _ => .typeReal
  | .String _ => .typeString
  | .Hex _ => .typeHex
  | .Array _ => .typeArray
  | .Dictionary _ => .typeDictionary
  | .ObjectRef _ => .typeObjRef
  | .Token _ => .typeToken
  | .ObjectDeclaration _ _ _ => .typeObjDecl

/-- The assignment `m[k] = v` on a Go map. -/
def mapSet {α β : Type} [BEq α] (m : List (α × β)) (k : α) (v : β) : List (α × β) :=
  (k, v) :: m.filter (fun e => !(e.1 == k))

/-- The test `value.Type() == typeToken && value.Equals(Token(t))`. -/
def isToken (v : Value) (t : String) : Bool :=
  match v with
  | .Token s => s == t
  | _ => false

/-- The interface comparison `header == objRef`: equal dynamic type and equal
fields. -/
def isRef (header : Option Value) (objRef : ObjectRef) : Bool :=
  match header with
  | some (.ObjectRef h) => decide (h = objRef)
  | _ => false

/-! ## Go library functions used by the parser -/

def maxInt64 : Int := 9223372036854775807

def minInt64 : Int := -9223372036854775808

/-- Two's complement wrap of a 64-bit signed integer. -/
def wrapInt64 (x : Int) : Int := (x + 9223372036854775808) % 18446744073709551616 - 9223372036854775808

def isDigit (c : Char) : Bool := decide ('0' ≤ c) && decide (c ≤ '9')

/-- Value of a run of decimal digits, most significant first. -/
def digitsVal : Nat → List Char → Nat
  | acc, [] => acc
  | acc, c :: cs => digitsVal (acc * 10 + (c.toNat - 48)) cs

/-- The function `strconv.Atoi` (and `strconv.ParseInt(s, 10, 64)`): the value
and whether `err == nil`.  A syntax error gives 0, a range error the nearest
bound. -/
def Atoi (s : String) : Int × Bool :=
  let body (neg : Bool) (ds : List Char) : Int × Bool :=
    if ds.isEmpty || !(ds.all isDigit) then (0, false)
    else
      let un : Int := (digitsVal 0 ds : Nat)
      if !neg && decide (un ≥ 9223372036854775808) then (maxInt64, false)
      else if neg && decide (un > 9223372036854775808) then (minInt64, false)
      else (if neg then -un else un, true)
  match s.data with
  | [] => (0, false)
  | '-' :: ds => body true ds
  | '+' :: ds => body false ds
  | ds => body false ds

/-- The predicate `unicode.IsSpace`. -/
def isSpace (c : Char) : Bool :=
  let n := c.toNat
  (9 ≤ n && n ≤ 13) || n == 32 || n == 0x85 || n == 0xA0 || n == 0x1680
    || (0x2000 ≤ n && n ≤ 0x200a) || n == 0x2028 || n == 0x2029 || n == 0x202f
    || n == 0x205f || n == 0x3000

/-- The function `strings.TrimSpace`. -/
def TrimSpace (s : String) : String :=
  String.mk ((s.data.dropWhile isSpace).reverse.dropWhile isSpace).reverse

/-- Pieces of a character list cut at every single space. -/
def splitAux : List Char → List Char → List String
  | cur, [] => [String.mk cur.reverse]
  | cur, c :: cs => if c = ' ' then String.mk cur.reverse :: splitAux [] cs else splitAux (c :: cur) cs

/-- The call `strings.Split(s, " ")`. -/
def Split (s : String) : List String := splitAux [] s.data

/-- The formatting `fmt.Sprintf("%d", n)`. -/
def fmtInt (n : Int) : String :=
  match n with
  | .ofNat m => Nat.repr m
  | .negSucc m => "-" ++ Nat.repr (m + 1)

/-! ## Token reader and parser state -/

/-- The operations of `PDFTokenReader` that `parser.go` calls, over a reader
state `σ`.  A token that is `nil` is `none`. -/
structure PDFTokenReader (σ : Type) where
  /-- The call `Seek(offset, whence)`: the new position, the error, the new state. -/
  Seek : σ → Int → Int → (Int × Option String) × σ
  ReadToken : σ → Option String × σ
  /-- The call `PeekTokens(n)`: up to `n` tokens, nothing consumed. -/
  PeekTokens : σ → Nat → List String
  ReadTokens : σ → Nat → σ
  ReadBytesToToken : σ → String → String × σ
  ReadLinesToToken : σ → String → (List String × Bool) × σ
  SkipToToken : σ → String → Bool × σ
  SkipBytes : σ → Nat → σ
  ReadByte : σ → (Char × Bool) × σ
  /-- The call `findXrefTable()`: the offset of the xref section, the error, the new state. -/
  findXrefTable : σ → (Int × Option String) × σ
  /-- The function `strconv.ParseFloat(s, 64)`, `none` when it fails. -/
  ParseFloat : String → Option ℚ

/-- PDFPage is a page extracted from the document. -/
structure PDFPage where
  Dictionary : Dictionary
  Number : Int

/-- The `xref` field of the parser. -/
structure Xref where
  maxObject : Int
  xrefLocation : Int
  xref : List (ObjectRef × Int)
  trailer : Dictionary

/-- PDFParser is the parser state, the reader state included. -/
structure PDFParser (σ : Type) where
  reader : σ
  pageNumber : Int
  lastUsedPageBox : String
  pages : List PDFPage
  xref : Xref
  currentObject : ObjectDeclaration
  root : Dictionary

/-- What a call does: return, panic, or run past the fuel. -/
inductive Outcome (σ α : Type) where
  | ret (a : α) (p : PDFParser σ)
  | panic (p : PDFParser σ)
  | outOfFuel

/-- The parser with a new reader state. -/
def PDFParser.withReader {σ : Type} (p : PDFParser σ) (r : σ) : PDFParser σ :=
  { p with reader := r }

/-- The value a call returned, if it returned. -/
def Outcome.value {σ α : Type} : Outcome σ α → Option α
  | .ret a _ => some a
  | _ => none

/-- The parser a call left behind: at its return or at its panic. -/
def Outcome.parser {σ α : Type} : Outcome σ α → Option (PDFParser σ)
  | .ret _ p => some p
  | .panic p => some p
  | .outOfFuel => none

/-- Whether the call ended in a run-time panic. -/
def Outcome.panicked {σ α : Type} : Outcome σ α → Bool
  | .panic _ => true
  | _ => false

/-! ## readValue -/

/-- The byte loop of the literal-string case of `readValue`. -/
def readString {σ : Type} (rd : PDFTokenReader σ) :
    Nat → PDFParser σ → Int → List Char → Outcome σ (Option Value)
  | 0, _, _, _ => .outOfFuel
  | fuel + 1, p, openBrackets, buf =>
    if openBrackets > 0 then
      match rd.ReadByte p.reader with
      | ((_, false), r) => .ret (some (.String (String.mk buf))) (p.withReader r)
      | ((b, true), r) =>
        if b = '(' then readString rd fuel (p.withReader r) (openBrackets + 1) (buf ++ [b])
        else if b = ')' then readString rd fuel (p.withReader r) (openBrackets + 1) (buf ++ [b])
        else if b = '\\' then
          match rd.ReadByte r with
          | ((b2, _), r2) => readString rd fuel (p.withReader r2) openBrackets (buf ++ [b2])
        else readString rd fuel (p.withReader r) openBrackets (buf ++ [b])
    else .ret (some (.String (String.mk buf))) p

/-- The numeric branch of `readValue`: an integer token, with two tokens of
lookahead for `n g obj` and `n g R`. -/
def readNumeric {σ : Type} (rd : PDFTokenReader σ) (p : PDFParser σ) (number : Int) :
    Outcome σ (Option Value) :=
  match rd.PeekTokens p.reader 2 with
  | [t0, t1] =>
    match Atoi t0 with
    | (number2, true) =>
      if t1 = "obj" then .ret (some (.ObjectRef ⟨number, number2⟩)) (p.withReader (rd.ReadTokens p.reader 2))
      else if t1 = "R" then .ret (some (.ObjectRef ⟨number, number2⟩)) (p.withReader (rd.ReadTokens p.reader 2))
      else .ret (some (.Numeric number)) p
    | (_, false) => .ret (some (.Numeric number)) p
  | _ => .ret (some (.Numeric number)) p

/-- The tail of `readValue` for a token that opens no composite value. -/
def readAtom {σ : Type} (rd : PDFTokenReader σ) (p : PDFParser σ) (str : String) :
    Outcome σ (Option Value) :=
  match Atoi str with
  | (number, true) => readNumeric rd p number
  | (_, false) =>
    match rd.ParseFloat str with
    | some real => .ret (some (.Real real)) p
    | none =>
      if str = "true" then .ret (some (.Boolean true)) p
      else if str = "false" then .ret (some (.Boolean false)) p
      else if str = "null" then .ret (some .Null) p
      else .ret (some (.Token str)) p

/-- The head of `readValue`: `if token == nil { token = parser.reader.ReadToken() }`. -/
def fetchToken {σ : Type} (rd : PDFTokenReader σ) (p : PDFParser σ) (token : Option String) :
    Option String × PDFParser σ :=
  match token with
  | some t => (some t, p)
  | none => ((rd.ReadToken p.reader).1, p.withReader (rd.ReadToken p.reader).2)

mutual

/-- The method `readValue`: `token` is the token handed in, `none` for `nil`. -/
def readValue {σ : Type} (rd : PDFTokenReader σ) :
    Nat → PDFParser σ → Option String → Outcome σ (Option Value)
  | 0, _, _ => .outOfFuel
  | fuel + 1, p0, token0 =>
    let p := (fetchToken rd p0 token0).2
    let str : String := (fetchToken rd p0 token0).1.getD ""
    if str = "<" then
      .ret (some (.Hex (rd.ReadBytesToToken p.reader ">").1))
        (p.withReader (rd.ReadBytesToToken p.reader ">").2)
    else if str = "<<" then readDict rd fuel p []
    else if str = "[" then readArray rd fuel p []
    else if str = "(" then readString rd fuel p 1 []
    else if str = "stream" then .ret (some .Null) p
    else readAtom rd p str

/-- The loop of the dictionary case of `readValue`. -/
def readDict {σ : Type} (rd : PDFTokenReader σ) :
    Nat → PDFParser σ → Dictionary → Outcome σ (Option Value)
  | 0, _, _ => .outOfFuel
  | fuel + 1, p, result =>
    match rd.ReadToken p.reader with
    | (none, r) => .ret none (p.withReader r)
    | (some key, r) =>
      if key = ">>" then .ret (some (.Dictionary result)) (p.withReader r)
      else
        match readValue rd fuel (p.withReader r) none with
        | .ret none p1 => .ret none p1
        | .ret (some value) p1 =>
          if isToken value ">>" then .ret (some (.Dictionary (mapSet result key .Null))) p1
          else readDict rd fuel p1 (mapSet result key value)
        | .panic p1 => .panic p1
        | .outOfFuel => .outOfFuel

/-- The loop of the array case of `readValue`. -/
def readArray {σ : Type} (rd : PDFTokenReader σ) :
    Nat → PDFParser σ → List (Option Value) → Outcome σ (Option Value)
  | 0, _, _ => .outOfFuel
  | fuel + 1, p, result =>
    match rd.ReadToken p.reader with
    | (token, r) =>
      if token = some "]" then .ret (some (.Array result)) (p.withReader r)
      else
        match readValue rd fuel (p.withReader r) token with
        | .ret value p1 => readArray rd fuel p1 (result ++ [value])
        | .panic p1 => .panic p1
        | .outOfFuel => .outOfFuel

end

/-! ## resolveObject -/

/-- The loop of `resolveObject` that reads the values of the object. -/
def readObjectValues {σ : Type} (rd : PDFTokenReader σ) :
    Nat → PDFParser σ → List Value → Outcome σ (List Value)
  | 0, _, _ => .outOfFuel
  | fuel + 1, p, values =>
    match readValue rd fuel p none with
    | .ret none p1 => .ret values p1
    | .ret (some value) p1 =>
      if values.length > 1 then .ret values p1
      else if isToken value "endobj" then .ret values p1
      else readObjectValues rd fuel p1 (values ++ [value])
    | .panic p1 => .panic p1
    | .outOfFuel => .outOfFuel

/-- The part of `resolveObject` after the reader is positioned behind the
header: build the declaration from `header`, read the values, seek back. -/
def resolveBody {σ : Type} (rd : PDFTokenReader σ) (fuel : Nat) (p : PDFParser σ)
    (header : Option Value) (originalOffset : Int) : Outcome σ (Option ObjectDeclaration) :=
  match header with
  | some (.ObjectRef h) =>
    match readObjectValues rd fuel { p with currentObject := ⟨h.Obj, h.Gen, []⟩ } [] with
    | .ret values p1 =>
      .ret (some ⟨h.Obj, h.Gen, values⟩) (p1.withReader (rd.Seek p1.reader originalOffset 0).2)
    | .panic p1 => .panic p1
    | .outOfFuel => .outOfFuel
  | _ => .panic p

/-- The method `resolveObject`. -/
def resolveObject {σ : Type} (rd : PDFTokenReader σ) (fuel : Nat) (p : PDFParser σ)
    (spec : Option Value) : Outcome σ (Option ObjectDeclaration) :=
  match spec with
  | none => .ret none p
  | some (.ObjectRef objRef) =>
    match p.xref.xref.lookup objRef with
    | some offset =>
      let originalOffset := (rd.Seek p.reader 0 1).1.1
      let r1 := (rd.Seek p.reader 0 1).2
      let r2 := (rd.Seek r1 offset 0).2
      match readValue rd fuel (p.withReader r2) none with
      | .ret header p3 =>
        if isRef header objRef then resolveBody rd fuel p3 header originalOffset
        else
          let r4 := (rd.Seek p3.reader 0 0).2
          let toSearchFor := fmtInt objRef.Obj ++ " " ++ fmtInt objRef.Gen ++ " obj"
          match rd.SkipToToken r4 toSearchFor with
          | (true, r5) =>
            resolveBody rd fuel (p3.withReader (rd.SkipBytes r5 toSearchFor.length)) header
              originalOffset
          | (false, r5) => .ret none (p3.withReader (rd.Seek r5 originalOffset 0).2)
      | .panic p3 => .panic p3
      | .outOfFuel => .outOfFuel
    | none => .ret none p
  | some (.ObjectDeclaration obj gen values) => .ret (some ⟨obj, gen, values⟩) p
  | some _ => .ret none p

/-! ## Page boxes -/

structure PointType where
  X : ℚ
  Y : ℚ
deriving DecidableEq

structure SizeType where
  Wd : ℚ
  Ht : ℚ
deriving DecidableEq

/-- Modelled from the spec: the `PageBox` struct (declared outside
`parser.go`), in the order of the composite literal in `getPageBox`: position,
size, lower-left corner, upper-right corner. -/
structure PageBox where
  position : PointType
  size : SizeType
  lowerLeft : PointType
  upperRight : PointType
deriving DecidableEq

/-- Modelled from the spec: the `PageBoxes` struct (declared outside
`parser.go`): the map of boxes and the name of a box. -/
structure PageBoxes where
  boxes : List (String × PageBox)
  boxName : String
deriving DecidableEq

/-- Modelled from the spec: the box-name constants (declared outside
`parser.go`), the keys of the five page boxes without the leading slash. -/
def MediaBox : String := "MediaBox"

/-- Modelled from the spec: see `MediaBox`. -/
def CropBox : String := "CropBox"

/-- Modelled from the spec: see `MediaBox`. -/
def BleedBox : String := "BleedBox"

/-- Modelled from the spec: see `MediaBox`. -/
def TrimBox : String := "TrimBox"

/-- Modelled from the spec: see `MediaBox`. -/
def ArtBox : String := "ArtBox"

/-- Modelled from the spec: the default box name (declared outside
`parser.go`). -/
def DefaultBox : String := CropBox

/-- The number held by an array element, for the arithmetic of `getPageBox`. -/
def numOf : Option Value → Option ℚ
  | some (.Numeric n) => some (n : ℚ)
  | some (.Real r) => some r
  | _ => none

/-- The arithmetic of `getPageBox` on the four coordinates of a box. -/
def boxOf (x0 y0 x1 y1 k : ℚ) : PageBox :=
  { position := ⟨x0 / k, y0 / k⟩
    size := ⟨|x0 - x1| / k, |y0 - y1| / k⟩
    lowerLeft := ⟨min x0 x1 / k, min y0 y1 / k⟩
    upperRight := ⟨max x0 x1 / k, max y0 y1 / k⟩ }

/-- The array branch of `getPageBox`: `boxDetails[0..3]` must exist and be
numbers (an index out of range panics). -/
def boxOfArray (boxDetails : List (Option Value)) (k : ℚ) : Option PageBox :=
  match numOf (boxDetails.getD 0 none), numOf (boxDetails.getD 1 none),
      numOf (boxDetails.getD 2 none), numOf (boxDetails.getD 3 none) with
  | some x0, some y0, some x1, some y1 => some (boxOf x0 y0 x1 y1 k)
  | _, _, _, _ => none

/-- The method `getPageBox`.  The local `box` is `nil`, the array stored under
the key, or the declaration that `resolveObject` returned for a reference (a
declaration is not of `typeArray`).  `if box == nil { return nil }` is taken
to return when the resolution failed. -/
def getPageBox {σ : Type} (rd : PDFTokenReader σ) :
    Nat → PDFParser σ → Dictionary → String → ℚ → Outcome σ (Option PageBox)
  | 0, _, _, _, _ => .outOfFuel
  | fuel + 1, p, page, boxIndex, k =>
    let withBox (p : PDFParser σ) (box : Option Value) : Outcome σ (Option PageBox) :=
      match box with
      | some b =>
        if valueType b = .typeArray then
          match b with
          | .Array boxDetails =>
            match boxOfArray boxDetails k with
            | some pageBox => .ret (some pageBox) p
            | none => .panic p
          | _ => .panic p
        else .ret none p
      | none =>
        match page.lookup "/Parent" with
        | some parentPageRef =>
          match resolveObject rd fuel p (some parentPageRef) with
          | .ret (some parentPageObj) p1 =>
            match parentPageObj.Values with
            | .Dictionary parent :: _ => getPageBox rd fuel p1 parent boxIndex k
            | _ => .panic p1
          | .ret none p1 => .panic p1
          | .panic p1 => .panic p1
          | .outOfFuel => .outOfFuel
        | none => .ret none p
    match page.lookup ("/" ++ boxIndex) with
    | some boxRef =>
      if valueType boxRef = .typeObjRef then
        match resolveObject rd fuel p (some boxRef) with
        | .ret (some decl) p1 => withBox p1 (some (.ObjectDeclaration decl.Obj decl.Gen decl.Values))
        | .ret none p1 => .ret none p1
        | .panic p1 => .panic p1
        | .outOfFuel => .outOfFuel
      else if valueType boxRef = .typeArray then withBox p (some boxRef)
      else withBox p none
    | none => withBox p none

/-- One `if box := parser.getPageBox(...); box != nil` step of `GetPageBoxes`. -/
def addPageBox {σ : Type} (rd : PDFTokenReader σ) (fuel : Nat) (page : Dictionary) (k : ℚ)
    (acc : Outcome σ (List (String × PageBox))) (name : String) :
    Outcome σ (List (String × PageBox)) :=
  match acc with
  | .ret boxes p =>
    match getPageBox rd fuel p page name k with
    | .ret (some box) p1 => .ret (mapSet boxes name box) p1
    | .ret none p1 => .ret boxes p1
    | .panic p1 => .panic p1
    | .outOfFuel => .outOfFuel
  | .panic p => .panic p
  | .outOfFuel => .outOfFuel

/-- The method `GetPageBoxes`; `pages[pageNumber - 1]` panics when the index is
negative. -/
def GetPageBoxes {σ : Type} (rd : PDFTokenReader σ) (fuel : Nat) (p : PDFParser σ)
    (pageNumber : Int) (k : ℚ) : Outcome σ PageBoxes :=
  if pageNumber < 0 ∨ pageNumber - 1 ≥ (p.pages.length : Int) then .ret ⟨[], DefaultBox⟩ p
  else if pageNumber - 1 < 0 then .panic p
  else
    match p.pages.get? (pageNumber - 1).toNat with
    | none => .panic p
    | some page =>
      match [MediaBox, CropBox, BleedBox, TrimBox, ArtBox].foldl
          (addPageBox rd fuel page.Dictionary k) (.ret [] p) with
      | .ret boxes p1 => .ret ⟨boxes, DefaultBox⟩ p1
      | .panic p1 => .panic p1
      | .outOfFuel => .outOfFuel

/-! ## readXrefTable -/

/-- The body of the line loop of `readXrefTable` for one line: the new cursor
`start` and xref state, or the format error. -/
def xrefLine (start : Int) (x : Xref) (lineBytes : String) : Except String (Int × Xref) :=
  let line := TrimSpace lineBytes
  if line ≠ "" then
    if line = "xref" then .ok (start, x)
    else
      match Split line with
      | [] => .ok (start, x)
      | [piece0, piece1] =>
        let end_ := (Atoi piece1).1
        .ok ((Atoi piece0).1, if end_ > x.maxObject then { x with maxObject := end_ } else x)
      | [piece0, piece1, piece2] =>
        let xr := (Atoi piece0).1
        let gen := (Atoi piece1).1
        let ref : ObjectRef := ⟨start, gen⟩
        .ok (wrapInt64 (start + 1),
          if (x.xref.lookup ref).isNone && piece2 == "n" then { x with xref := mapSet x.xref ref xr }
          else x)
      | _ => .error ("Unexpected data in xref table: '" ++ line ++ "'")
  else .ok (start, x)

/-- The line loop of `readXrefTable`: the cursor and xref state when the loop
ends, and the error that ended it, if any. -/
def xrefLines : Int → Xref → List String → (Int × Xref) × Option String
  | start, x, [] => ((start, x), none)
  | start, x, lineBytes :: rest =>
    match xrefLine start x lineBytes with
    | .ok (start1, x1) => xrefLines start1 x1 rest
    | .error err => ((start, x), some err)

/-- The xref state with which `readXrefTable` enters its line loop. -/
def xrefInit (x : Xref) (offset : Int) : Xref :=
  if x.xrefLocation = 0 then { x with maxObject := 0, xrefLocation := offset, xref := [] }
  else x

/-- The method `readXrefTable`; the result is the returned `error`. -/
def readXrefTable {σ : Type} (rd : PDFTokenReader σ) (fuel : Nat) (p : PDFParser σ)
    (offset : Int) : Outcome σ (Option String) :=
  match rd.Seek p.reader offset 0 with
  | ((_, some err), r) => .ret (some err) (p.withReader r)
  | ((_, none), r) =>
    match rd.ReadLinesToToken r "trailer" with
    | ((_, false), r1) => .ret (some "Cannot read end of xref table") (p.withReader r1)
    | ((lines, true), r1) =>
      match xrefLines 1 (xrefInit p.xref offset) lines with
      | ((_, x1), some err) => .ret (some err) { p with reader := r1, xref := x1 }
      | ((_, x1), none) =>
        match rd.Seek r1 offset 0 with
        | ((_, some err), r2) => .ret (some err) { p with reader := r2, xref := x1 }
        | ((_, none), r2) =>
          match rd.SkipToToken r2 "trailer" with
          | (false, r3) => .ret (some "Cannot skip to trailer") { p with reader := r3, xref := x1 }
          | (true, r3) =>
            match readValue rd fuel { p with reader := (rd.ReadToken r3).2, xref := x1 } none with
            | .ret (some (.Dictionary trailer)) p2 =>
              .ret none { p2 with xref := { p2.xref with trailer := trailer } }
            | .ret _ p2 => .panic p2
            | .panic p2 => .panic p2
            | .outOfFuel => .outOfFuel

/-! ## The open sequence -/

/-- The method `readRoot`; the result is the returned `error`.  The expression
`root.Values[0].(Dictionary)` panics when there is no first value or it is not
a dictionary. -/
def readRoot {σ : Type} (rd : PDFTokenReader σ) (fuel : Nat) (p : PDFParser σ) :
    Outcome σ (Option String) :=
  match p.xref.trailer.lookup "/Root" with
  | some rootRef =>
    if valueType rootRef ≠ .typeObjRef then
      .ret (some "Wrong Type of Root-Element! Must be an indirect reference") p
    else
      match resolveObject rd fuel p (some rootRef) with
      | .ret none p1 => .ret (some "Could not find reference to root") p1
      | .ret (some root) p1 =>
        match root.Values with
        | .Dictionary d :: _ => .ret none { p1 with root := d }
        | _ => .panic p1
      | .panic p1 => .panic p1
      | .outOfFuel => .outOfFuel
  | none => .ret (some "Could not find root in trailer") p

/-- The method `getPagesObj`: the pages dictionary, or the returned `error`. -/
def getPagesObj {σ : Type} (rd : PDFTokenReader σ) (fuel : Nat) (p : PDFParser σ) :
    Outcome σ (Except String Dictionary) :=
  match p.root.lookup "/Pages" with
  | some pagesRef =>
    if valueType pagesRef ≠ .typeObjRef then
      .ret (.error "Wrong Type of Pages-Element! Must be an indirect reference") p
    else
      match resolveObject rd fuel p (some pagesRef) with
      | .ret none p1 => .ret (.error "Could not find reference to pages") p1
      | .ret (some pages) p1 =>
        match pages.Values with
        | .Dictionary d :: _ => .ret (.ok d) p1
        | _ => .panic p1
      | .panic p1 => .panic p1
      | .outOfFuel => .outOfFuel
  | none => .ret (.error "Could not find /Pages in /Root-Dictionary") p

/-- The loop of `readPages` over the kids, `k` the index of the next kid (the
verb `%i` of the error message is not one of `fmt`, which prints it as
`%!i(int=k)`). -/
def readKids {σ : Type} (rd : PDFTokenReader σ) (fuel : Nat) :
    PDFParser σ → Nat → List (Option Value) → Outcome σ (Option String)
  | p, _, [] => .ret none p
  | p, k, val :: rest =>
    match resolveObject rd fuel p val with
    | .ret none p1 => .ret (some ("Could not find reference to page %!i(int=" ++ fmtInt k ++ ")")) p1
    | .ret (some pageObj) p1 =>
      match pageObj.Values with
      | .Dictionary d :: _ =>
        readKids rd fuel { p1 with pages := p1.pages ++ [⟨d, (k : Int) + 1⟩] } (k + 1) rest
      | _ => .panic p1
    | .panic p1 => .panic p1
    | .outOfFuel => .outOfFuel

/-- The method `readPages`; the result is the returned `error`. -/
def readPages {σ : Type} (rd : PDFTokenReader σ) (fuel : Nat) (p : PDFParser σ)
    (pages : Dictionary) : Outcome σ (Option String) :=
  match pages.lookup "/Kids" with
  | some kidsRef =>
    if valueType kidsRef ≠ .typeArray then
      .ret (some "Wrong Type of Kids-Element! Must be an array") p
    else
      match kidsRef with
      | .Array kids => readKids rd fuel p 0 kids
      | _ => .panic p
  | none => .ret (some "Cannot find /Kids in current /Page-Dictionary") p

/-- The method `getEncryption`. -/
def getEncryption {σ : Type} (p : PDFParser σ) : Bool :=
  (p.xref.trailer.lookup "/Encrypt").isSome

/-- The parser that `new(PDFParser)` and the first assignments of
`OpenPDFParser` build around a reader. -/
def newParser {σ : Type} (reader : σ) : PDFParser σ where
  reader := reader
  pageNumber := 0
  lastUsedPageBox := DefaultBox
  pages := []
  xref := ⟨0, 0, [], []⟩
  currentObject := ⟨0, 0, []⟩
  root := []

/-- The function `OpenPDFParser` from the point where the token reader exists.
The result is the returned `error`; the parser is handed to the caller only
when the error is `nil`. -/
def OpenPDFParser {σ : Type} (rd : PDFTokenReader σ) (fuel : Nat) (reader : σ) :
    Outcome σ (Option String) :=
  match rd.findXrefTable reader with
  | ((_, some err), r) => .ret (some err) (newParser r)
  | ((offset, none), r) =>
    match readXrefTable rd fuel (newParser r) offset with
    | .ret (some err) p1 => .ret (some err) p1
    | .ret none p1 =>
      match readRoot rd fuel p1 with
      | .ret (some err) p2 => .ret (some err) p2
      | .ret none p2 =>
        if getEncryption p2 then .ret (some "File is encrypted!") p2
        else
          match getPagesObj rd fuel p2 with
          | .ret (.error err) p3 => .ret (some err) p3
          | .ret (.ok pagesObj) p3 => readPages rd fuel p3 pagesObj
          | .panic p3 => .panic p3
          | .outOfFuel => .outOfFuel
      | .panic p2 => .panic p2
      | .outOfFuel => .outOfFuel
    | .panic p1 => .panic p1
    | .outOfFuel => .outOfFuel

/-! ## A concrete token reader -/

/-- Modelled from the spec: the Token Reader collaborator (its source is not
part of `parser.go`), as a byte source with a cursor.  Tokens are separated by
white space; `<<`, `>>`, `<`, `>`, `[`, `]`, `(`, `)` are tokens of their own
and `/` starts a name. -/
structure ByteReader where
  data : List Char
  pos : Nat
deriving DecidableEq

def isWhite (c : Char) : Bool :=
  c.toNat == 0 || c.toNat == 9 || c.toNat == 10 || c.toNat == 12 || c.toNat == 13 || c.toNat == 32

def isDelim (c : Char) : Bool :=
  c == '(' || c == ')' || c == '<' || c == '>' || c == '[' || c == ']' || c == '/'

def isRegular (c : Char) : Bool := !(isWhite c) && !(isDelim c)

/-- The next token of a byte run and the bytes after it. -/
def scanToken (l : List Char) : Option (List Char × List Char) :=
  match l.dropWhile isWhite with
  | [] => none
  | '<' :: '<' :: rest => some (['<', '<'], rest)
  | '>' :: '>' :: rest => some (['>', '>'], rest)
  | '/' :: rest => some ('/' :: rest.takeWhile isRegular, rest.dropWhile isRegular)
  | c :: rest =>
    if isDelim c then some ([c], rest)
    else some (c :: rest.takeWhile isRegular, rest.dropWhile isRegular)

/-- The bytes from the cursor on. -/
def ByteReader.rest (r : ByteReader) : List Char := r.data.drop r.pos

/-- The reader with its cursor where `rest` starts, counted from the end. -/
def ByteReader.at (r : ByteReader) (rest : List Char) : ByteReader :=
  { r with pos := r.data.length - rest.length }

def ByteReader.ReadToken (r : ByteReader) : Option String × ByteReader :=
  match scanToken r.rest with
  | none => (none, { r with pos := max r.pos r.data.length })
  | some (t, rest) => (some (String.mk t), r.at rest)

def peekList : Nat → List Char → List String
  | 0, _ => []
  | n + 1, l =>
    match scanToken l with
    | none => []
    | some (t, rest) => String.mk t :: peekList n rest

def ByteReader.PeekTokens (r : ByteReader) (n : Nat) : List String := peekList n r.rest

def ByteReader.ReadTokens : ByteReader → Nat → ByteReader
  | r, 0 => r
  | r, n + 1 => ByteReader.ReadTokens r.ReadToken.2 n

/-- The bytes before the first occurrence of `pat`, and the bytes from that
occurrence on (`none` when `pat` does not occur). -/
def splitAt : List Char → List Char → List Char → List Char × Option (List Char)
  | _, acc, [] => (acc.reverse, none)
  | pat, acc, c :: cs =>
    if pat.isPrefixOf (c :: cs) then (acc.reverse, some (c :: cs))
    else splitAt pat (c :: acc) cs

def ByteReader.ReadBytesToToken (r : ByteReader) (token : String) : String × ByteReader :=
  match splitAt token.data [] r.rest with
  | (bytes, some found) => (String.mk bytes, r.at (found.drop token.length))
  | (bytes, none) => (String.mk bytes, { r with pos := max r.pos r.data.length })

def ByteReader.SkipToToken (r : ByteReader) (token : String) : Bool × ByteReader :=
  match splitAt token.data [] r.rest with
  | (_, some found) => (true, r.at found)
  | (_, none) => (false, { r with pos := max r.pos r.data.length })

def ByteReader.SkipBytes (r : ByteReader) (n : Nat) : ByteReader := { r with pos := r.pos + n }

def ByteReader.ReadByte (r : ByteReader) : (Char × Bool) × ByteReader :=
  match r.rest with
  | [] => (('\x00', false), r)
  | c :: _ => ((c, true), { r with pos := r.pos + 1 })

def ByteReader.Seek (r : ByteReader) (offset whence : Int) : (Int × Option String) × ByteReader :=
  let base : Int := if whence = 0 then 0 else if whence = 1 then r.pos else r.data.length
  if base + offset < 0 then ((0, some "negative position"), r)
  else ((base + offset, none), { r with pos := (base + offset).toNat })

/-- The offset written after the keyword `startxref`. -/
def ByteReader.findXrefTable (r : ByteReader) : (Int × Option String) × ByteReader :=
  match splitAt "startxref".data [] r.data with
  | (_, some found) =>
    match scanToken (found.drop 9) with
    | some (t, rest) =>
      match Atoi (String.mk t) with
      | (offset, true) => ((offset, none), r.at rest)
      | (_, false) => ((0, some "Cannot read the xref offset"), r)
    | none => ((0, some "Cannot read the xref offset"), r)
  | (_, none) => ((0, some "Cannot find startxref"), r)

/-- The lines of a byte run, cut at every line feed. -/
def linesAux : List Char → List Char → List String
  | cur, [] => [String.mk cur.reverse]
  | cur, c :: cs =>
    if c = '\n' then String.mk cur.reverse :: linesAux [] cs else linesAux (c :: cur) cs

def ByteReader.ReadLinesToToken (r : ByteReader) (token : String) :
    (List String × Bool) × ByteReader :=
  match splitAt token.data [] r.rest with
  | (bytes, some found) => ((linesAux [] bytes, true), r.at found)
  | (bytes, none) => ((linesAux [] bytes, false), { r with pos := max r.pos r.data.length })

/-- A decimal fraction `digits.digits` with an optional sign, as `ParseFloat`
reads it. -/
def parseDecimal (s : String) : Option ℚ :=
  let body (neg : Bool) (l : List Char) : Option ℚ :=
    let ip := l.takeWhile isDigit
    match l.dropWhile isDigit with
    | '.' :: fp =>
      if (ip.isEmpty && fp.isEmpty) || !(fp.all isDigit) then none
      else
        let v : ℚ := (digitsVal 0 (ip ++ fp) : ℚ) / (10 : ℚ) ^ fp.length
        some (if neg then -v else v)
    | [] => if ip.isEmpty then none else some (if neg then -(digitsVal 0 ip : ℚ) else (digitsVal 0 ip : ℚ))
    | _ => none
  match s.data with
  | '-' :: l => body true l
  | '+' :: l => body false l
  | l => body false l

/-- The concrete reader as a `PDFTokenReader`. -/
def byteReader : PDFTokenReader ByteReader where
  Seek := ByteReader.Seek
  ReadToken := ByteReader.ReadToken
  PeekTokens := ByteReader.PeekTokens
  ReadTokens := ByteReader.ReadTokens
  ReadBytesToToken := ByteReader.ReadBytesToToken
  ReadLinesToToken := ByteReader.ReadLinesToToken
  SkipToToken := ByteReader.SkipToToken
  SkipBytes := ByteReader.SkipBytes
  ReadByte := ByteReader.ReadByte
  findXrefTable := ByteReader.findXrefTable
  ParseFloat := parseDecimal

/-- A parser as `new(PDFParser)` leaves it, reading `data` from `pos`. -/
def freshParser (data : String) (pos : Nat) : PDFParser ByteReader := newParser ⟨data.data, pos⟩

/-- The page dictionary with the unsorted media box `[200 0 0 300]`. -/
def unsortedPage : Dictionary :=
  [("/MediaBox", .Array [some (.Numeric 200), some (.Numeric 0), some (.Numeric 0),
    some (.Numeric 300)])]

/-! ## The xref table as the specification reads it -/

/-- The shape of one xref line: blank or the keyword `xref`, a two-field line
`start end`, a three-field line `offset generation flag`, or anything else.
Fields are the pieces between single spaces of the trimmed line, and numbers
are read with `Atoi`. -/
inductive XrefShape where
  | skip
  | range (start end_ : Int)
  | entry (offset gen : Int) (flag : String)
  | other (line : String)

def xrefShape (lineBytes : String) : XrefShape :=
  if TrimSpace lineBytes = "" ∨ TrimSpace lineBytes = "xref" then .skip
  else
    match Split (TrimSpace lineBytes) with
    | [] => .skip
    | [a, b] => .range (Atoi a).1 (Atoi b).1
    | [a, b, c] => .entry (Atoi a).1 (Atoi b).1 c
    | _ => .other (TrimSpace lineBytes)

/-- The in-use entries that a run of xref lines declares, in input order:
a two-field line sets the object-number cursor, a three-field line addresses
(cursor, generation) and moves the cursor on by one, and only flag `n` is in
use.  Reading stops at a line of another shape. -/
def inUseEntries : Int → List String → List (ObjectRef × Int)
  | _, [] => []
  | cursor, l :: rest =>
    match xrefShape l with
    | .skip => inUseEntries cursor rest
    | .range start _ => inUseEntries start rest
    | .entry offset gen flag =>
      (if flag = "n" then [(⟨cursor, gen⟩, offset)] else [])
        ++ inUseEntries (wrapInt64 (cursor + 1)) rest
    | .other _ => []

/-- The lines before the first line that is neither blank, `xref`, two-field
nor three-field: the lines the loop gets to see. -/
def seenLines : List String → List String
  | [] => []
  | l :: rest =>
    match xrefShape l with
    | .other _ => []
    | _ => l :: seenLines rest

/-- The `end` fields of the two-field lines, in input order. -/
def rangeEnds : List String → List Int
  | [] => []
  | l :: rest =>
    match xrefShape l with
    | .range _ end_ => end_ :: rangeEnds rest
    | _ => rangeEnds rest

/-- The largest element of a list of integers, 0 for the empty list. -/
def largest : List Int → Int
  | [] => 0
  | [e] => e
  | e :: es => max e (largest es)

/-- Every two-field line holds two non-negative integers: both fields parse
with `Atoi` and are not negative. -/
def wellFormedRanges (lines : List String) : Bool :=
  lines.all fun l =>
    match Split (TrimSpace l) with
    | [a, b] => (Atoi a).2 && decide (0 ≤ (Atoi a).1) && ((Atoi b).2 && decide (0 ≤ (Atoi b).1))
    | _ => true

/-- A line that is non-empty after trimming, is not the keyword `xref`, and
has neither two nor three fields. -/
def malformedLine (lineBytes : String) : Prop :=
  TrimSpace lineBytes ≠ "" ∧ TrimSpace lineBytes ≠ "xref"
    ∧ (Split (TrimSpace lineBytes)).length ≠ 2 ∧ (Split (TrimSpace lineBytes)).length ≠ 3

/-- A call touched nothing of the parser but its reader: the parser it left
behind is `p` with another reader state. -/
def OnlyReader {σ α : Type} (p : PDFParser σ) (o : Outcome σ α) : Prop :=
  ∀ q, o.parser = some q → ∃ r, q = p.withReader r

/-- What `resolveObject` needs of `Seek`, for a reader whose stream position
is `pos`: `Seek(0, 1)` reports the position, and `Seek(offset, 0)` to an
offset that is not negative moves the position there. -/
structure SeekLaws {σ : Type} (rd : PDFTokenReader σ) (pos : σ → Int) : Prop where
  tell : ∀ s, (rd.Seek s 0 1).1.1 = pos s
  seek : ∀ s offset, 0 ≤ offset → pos (rd.Seek s offset 0).2 = offset
  nonneg : ∀ s, 0 ≤ pos s

/-- A parser over the concrete reader with the given xref map. -/
def withXref (p : PDFParser ByteReader) (xref : List (ObjectRef × Int)) : PDFParser ByteReader :=
  { p with xref := { p.xref with xref := xref } }

/-- The stream position that a call on the concrete reader left behind. -/
def Outcome.position {α : Type} (o : Outcome ByteReader α) : Option Nat :=
  o.parser.map (fun q => q.reader.pos)

/-- A source whose object 1 is not where the xref map says: offset 0 holds the
number 7, the header `1 0 obj` starts at byte 2. -/
def driftedSource : String := "7 1 0 obj 5 endobj"

/-- A source whose xref map sends object 1 to the header of object 2; the
header `1 0 obj` starts at byte 17. -/
def swappedSource : String := "2 0 obj 5 endobj 1 0 obj 7 endobj"

/-- An xref section with a trailer that is an array. -/
def arrayTrailerSource : String := "xref\n0 1\n0000000000 65535 f\ntrailer\n[ 1 2 ]"

/-- An xref section with a trailer that is a number. -/
def numberTrailerSource : String := "xref\n0 1\n0000000000 65535 f\ntrailer\n5"

/-- An xref section with nothing after the `trailer` keyword. -/
def noTrailerSource : String := "xref\n0 1\n0000000000 65535 f\ntrailer\n"

/-- An xref section as a writer emits it: the keyword line `xref`, a
subsection header, entries (object 1 twice), and a dictionary trailer. -/
def plainSource : String :=
  "xref\n0 2\n0000000000 65535 f\n0000000017 00000 n\n1 1\n0000000099 00000 n\ntrailer\n<< /Size 2 >>"

/-- The lines of `plainSource` up to the `trailer` keyword. -/
def plainLines : List String :=
  ["xref", "0 2", "0000000000 65535 f", "0000000017 00000 n", "1 1", "0000000099 00000 n", ""]

/-- The parser that `readXrefTable` leaves on `plainSource`: cursor at the
end, object maximum 2, object 1 at offset 17, the trailer stored. -/
def plainResult : PDFParser ByteReader :=
  { freshParser plainSource 91 with
    xref := ⟨2, 0, [(⟨1, 0⟩, 17)], [("/Size", .Numeric 2)]⟩ }

/-- An xref section with a one-field line that is not the keyword `xref`. -/
def bogusSource : String := "xref\n0 1\nbogus\ntrailer\n<< >>"

/-! ## Token sequences of composite values -/

/-- Whether a token is a name: it starts with `/`. -/
def isName (k : String) : Bool := k.data.head? == some '/'

/-- From the parser `p` on, the reader holds the dictionary entries `kvs` and
then `>>`: each key is the next token, each value is what `readValue` (with
fuel `fuel`) decodes behind its key, and `q` is the parser behind `>>`. -/
def dictEntries {σ : Type} (rd : PDFTokenReader σ) (fuel : Nat) :
    PDFParser σ → List (String × Value) → PDFParser σ → Prop
  | p, [], q => ∃ r, rd.ReadToken p.reader = (some ">>", r) ∧ q = p.withReader r
  | p, kv :: rest, q =>
    ∃ r p1, rd.ReadToken p.reader = (some kv.1, r)
      ∧ readValue rd fuel (p.withReader r) none = .ret (some kv.2) p1
      ∧ dictEntries rd fuel p1 rest q

/-- From the parser `p` on, the reader holds the array elements `vs` and then
a bare `]`: each value is what `readValue` (with fuel `fuel`) decodes from its
first token on, and `q` is the parser behind `]`. -/
def arrayItems {σ : Type} (rd : PDFTokenReader σ) (fuel : Nat) :
    PDFParser σ → List Value → PDFParser σ → Prop
  | p, [], q => ∃ r, rd.ReadToken p.reader = (some "]", r) ∧ q = p.withReader r
  | p, v :: rest, q =>
    ∃ t r p1, rd.ReadToken p.reader = (some t, r) ∧ t ≠ "]"
      ∧ readValue rd fuel (p.withReader r) (some t) = .ret (some v) p1
      ∧ arrayItems rd fuel p1 rest q

/-- The entries of the dictionary `<< /Type /Page /Parent 3 0 R >>`. -/
def pageEntries : List (String × Value) :=
  [("/Type", .Token "/Page"), ("/Parent", .ObjectRef ⟨3, 0⟩)]

/-- The parser `q` has the page list, the xref state and the root of `p`. -/
def Kept {σ : Type} (p q : PDFParser σ) : Prop :=
  q.pages = p.pages ∧ q.xref = p.xref ∧ q.root = p.root

/-! ## Page-tree chains -/

/-- From the parser `p` and the dictionary `d`, `n` steps up the `/Parent`
links lead to the dictionary `a`, with the parser `q`: every node on the way
lacks `key` and has a `/Parent` entry that `resolveObject` (with fuel `fuel`)
resolves to a declaration whose first value is the next dictionary. -/
def parentChain {σ : Type} (rd : PDFTokenReader σ) (fuel : Nat) (key : String) :
    Nat → PDFParser σ → Dictionary → PDFParser σ → Dictionary → Prop
  | 0, p, d, q, a => q = p ∧ a = d
  | n + 1, p, d, q, a =>
    d.lookup key = none ∧
      ∃ ref decl p1 parent rest, d.lookup "/Parent" = some ref
        ∧ resolveObject rd fuel p (some ref) = .ret (some decl) p1
        ∧ decl.Values = .Dictionary parent :: rest
        ∧ parentChain rd fuel key n p1 parent q a

/-- A source with the page-tree node 2, which holds the media box
`[200 0 0 300]`. -/
def parentSource : String := "2 0 obj << /MediaBox [200 0 0 300] >> endobj"

/-- A page without boxes whose parent is object 2. -/
def childPage : Dictionary := [("/Parent", .ObjectRef ⟨2, 0⟩)]

/-- The parser over `parentSource` that knows object 2. -/
def parentParser : PDFParser ByteReader := withXref (freshParser parentSource 0) [(⟨2, 0⟩, 0)]

/-- The parser `parentParser` after object 2 was resolved. -/
def parentParserAfter : PDFParser ByteReader :=
  { parentParser with currentObject := ⟨2, 0, []⟩ }

/-- A parser over the concrete reader with the given trailer. -/
def withTrailer (p : PDFParser ByteReader) (trailer : Dictionary) : PDFParser ByteReader :=
  { p with xref := { p.xref with trailer := trailer } }

/-- A source whose object 5 is the array `[200 0 0 300]`. -/
def boxSource : String := "5 0 obj [200 0 0 300] endobj"

/-- A page whose media box is a reference to object 5. -/
def boxRefPage : Dictionary := [("/MediaBox", .ObjectRef ⟨5, 0⟩)]

/-- The parser over `boxSource` that knows object 5. -/
def boxParser : PDFParser ByteReader := withXref (freshParser boxSource 0) [(⟨5, 0⟩, 0)]

/-- A trailer whose `/Root` is a reference to object 1. -/
def rootTrailer : Dictionary := [("/Root", .ObjectRef ⟨1, 0⟩)]

/-- A parser over `source` that knows object 1 at offset 0 and has `rootTrailer`. -/
def rootParser (source : String) : PDFParser ByteReader :=
  withTrailer (withXref (freshParser source 0) [(⟨1, 0⟩, 0)]) rootTrailer

/-! ## The kids of the page tree -/

/-- Each of `kids` resolves, when its turn in the loop of `readPages` comes,
to a declaration whose first value is a dictionary: `dicts` are these
dictionaries in order, `k` is the index of the first kid, `p` the parser
before the first kid and `q` the parser after the last. -/
def kidsResolve {σ : Type} (rd : PDFTokenReader σ) (fuel : Nat) :
    PDFParser σ → Nat → List (Option Value) → List Dictionary → PDFParser σ → Prop
  | p, _, [], [], q => q = p
  | p, k, kid :: kids, d :: ds, q =>
    ∃ decl p1 rest, resolveObject rd fuel p kid = .ret (some decl) p1
      ∧ decl.Values = .Dictionary d :: rest
      ∧ kidsResolve rd fuel { p1 with pages := p1.pages ++ [⟨d, (k : Int) + 1⟩] } (k + 1) kids ds q
  | _, _, _, _, _ => False

/-- The pages made of the dictionaries `ds`, numbered from `k + 1` on. -/
def numberPages : Nat → List Dictionary → List PDFPage
  | _, [] => []
  | k, d :: ds => ⟨d, (k : Int) + 1⟩ :: numberPages (k + 1) ds

/-- A source with two page objects, 3 and 4. -/
def kidsSource : String := "3 0 obj << /A 1 >> endobj 4 0 obj << /B 2 >> endobj"

/-- The parser over `kidsSource` that knows objects 3 and 4. -/
def kidsParser : PDFParser ByteReader :=
  withXref (freshParser kidsSource 0) [(⟨3, 0⟩, 0), (⟨4, 0⟩, 26)]

/-- A pages dictionary whose kids are objects 3 and 4. -/
def twoKids : Dictionary :=
  [("/Kids", .Array [some (.ObjectRef ⟨3, 0⟩), some (.ObjectRef ⟨4, 0⟩)])]

/-- A pages dictionary whose second kid, object 9, is not in the xref map. -/
def lostKid : Dictionary :=
  [("/Kids", .Array [some (.ObjectRef ⟨3, 0⟩), some (.ObjectRef ⟨9, 0⟩)])]

/-- The parser that `readPages` leaves on `kidsParser` and `twoKids`. -/
def kidsParserAfter : PDFParser ByteReader :=
  { kidsParser with
    currentObject := ⟨4, 0, []⟩
    pages := [⟨[("/A", .Numeric 1)], 1⟩, ⟨[("/B", .Numeric 2)], 2⟩] }

/-! ## An encrypted document -/

/-- A document whose trailer has `/Encrypt`: the catalog (object 1), the xref
section at offset 34, the trailer, and `startxref`. -/
def encryptedSource : String :=
  "1 0 obj << /Pages 2 0 R >> endobj\nxref\n0 2\n0000000000 65535 f\n0000000000 00000 n\ntrailer\n<< /Root 1 0 R /Encrypt 5 0 R >>\nstartxref\n34\n"

/-- The parser that `readXrefTable` leaves on `encryptedSource`. -/
def encryptedParser : PDFParser ByteReader :=
  { newParser ⟨encryptedSource.data, 121⟩ with
    xref := ⟨2, 34, [(⟨1, 0⟩, 0)],
      [("/Encrypt", .ObjectRef ⟨5, 0⟩), ("/Root", .ObjectRef ⟨1, 0⟩)]⟩ }

/-- The parser that `readRoot` leaves on `encryptedParser`. -/
def encryptedParserRoot : PDFParser ByteReader :=
  { encryptedParser with
    currentObject := ⟨1, 0, []⟩, root := [("/Pages", .ObjectRef ⟨2, 0⟩)] }

/-! ## The values of an object -/

/-- The values that successive calls of `readValue` (with fuel `fuel`) decode
from the parser `p` on, before the first `endobj` token or the first decode
that gives no value; at most `n` of them are decoded. -/
def valuesBefore {σ : Type} (rd : PDFTokenReader σ) (fuel : Nat) :
    Nat → PDFParser σ → List Value
  | 0, _ => []
  | n + 1, p =>
    match readValue rd fuel p none with
    | .ret (some v) p1 => if isToken v "endobj" then [] else v :: valuesBefore rd fuel n p1
    | _ => []

/-- The parser with which `resolveObject` starts to read the values of the
object `objRef`: the reader behind the header (found at the recorded offset
or by the linear scan) and `currentObject` set; `none` when the object is not
reached. -/
def behindHeader {σ : Type} (rd : PDFTokenReader σ) (fuel : Nat) (p : PDFParser σ)
    (objRef : ObjectRef) : Option (PDFParser σ) :=
  match p.xref.xref.lookup objRef with
  | none => none
  | some offset =>
    match readValue rd fuel (p.withReader (rd.Seek (rd.Seek p.reader 0 1).2 offset 0).2) none with
    | .ret (some (.ObjectRef h)) p3 =>
      if isRef (some (.ObjectRef h)) objRef then
        some { p3 with currentObject := ⟨h.Obj, h.Gen, []⟩ }
      else
        match rd.SkipToToken (rd.Seek p3.reader 0 0).2
            (fmtInt objRef.Obj ++ " " ++ fmtInt objRef.Gen ++ " obj") with
        | (true, r5) =>
          some { p3 with
            reader := rd.SkipBytes r5
              (fmtInt objRef.Obj ++ " " ++ fmtInt objRef.Gen ++ " obj").length
            currentObject := ⟨h.Obj, h.Gen, []⟩ }
        | (false, _) => none
    | _ => none

/-- A source whose object 1 holds three values before `endobj`. -/
def threeValuesSource : String := "1 0 obj 5 6 7 endobj"

/-- The declaration that `resolveObject` returns for object 1 of
`threeValuesSource`. -/
def firstTwo : ObjectDeclaration := ⟨1, 0, [.Numeric 5, .Numeric 6]⟩

/-- The parser over `threeValuesSource` that knows object 1. -/
def threeValuesParser : PDFParser ByteReader :=
  withXref (freshParser threeValuesSource 0) [(⟨1, 0⟩, 0)]

/-! ## Literal strings as the code reads them -/

/-- What `ReadByte` does on a finite byte source whose remaining bytes are
`remaining`: at the end it fails and stays at the end, before that it gives
the next byte and moves on by one. -/
structure ByteLaws {σ : Type} (rd : PDFTokenReader σ) (remaining : σ → List Char) : Prop where
  eof : ∀ s, remaining s = [] →
    (rd.ReadByte s).1.2 = false ∧ remaining (rd.ReadByte s).2 = []
  next : ∀ s b bs, remaining s = b :: bs →
    (rd.ReadByte s).1 = (b, true) ∧ remaining (rd.ReadByte s).2 = bs

/-- The bytes with each escaping backslash dropped and the byte after it
kept. -/
def unescape : List Char → List Char
  | [] => []
  | '\\' :: b :: rest => b :: unescape rest
  | c :: rest => c :: unescape rest

/-- Every escaping backslash is followed by a byte. -/
def escapesComplete : List Char → Bool
  | [] => true
  | '\\' :: _ :: rest => escapesComplete rest
  | ['\\'] => false
  | _ :: rest => escapesComplete rest

/-! ## Sources on which decoding goes wrong -/

/-- A dictionary whose only value is a literal string. -/
def stringDictSource : String := "<< /K (v) >>"

/-- An array whose first element is a literal string. -/
def stringArraySource : String := "[(a) 1]"

/-- A source whose object 3 is the number 7. -/
def numberKidSource : String := "3 0 obj 7 endobj"

/-- The parser over `numberKidSource` that knows object 3 (and no object 9). -/
def numberKidParser : PDFParser ByteReader :=
  withXref (freshParser numberKidSource 0) [(⟨3, 0⟩, 0)]

/-- A document whose trailer has `/Encrypt` and whose root, object 1, is the
number 7: the xref section is at offset 17. -/
def encryptedBadRootSource : String :=
  "1 0 obj 7 endobj\nxref\n0 2\n0000000000 65535 f\n0000000000 00000 n\ntrailer\n<< /Root 1 0 R /Encrypt 5 0 R >>\nstartxref\n17\n"

/-- The parser that `readXrefTable` leaves on `encryptedBadRootSource`. -/
def encryptedBadRootParser : PDFParser ByteReader :=
  { newParser ⟨encryptedBadRootSource.data, 104⟩ with
    xref := ⟨2, 17, [(⟨1, 0⟩, 0)],
      [("/Encrypt", .ObjectRef ⟨5, 0⟩), ("/Root", .ObjectRef ⟨1, 0⟩)]⟩ }

/-! ## Theorems -/

/-! ### GetPageBoxes and getPageBox -/

/-- A page number below zero or beyond the page list gives the empty box map
tagged with the default box name, and the parser is untouched. -/
theorem GetPageBoxes_outside {σ : Type} (rd : PDFTokenReader σ) (fuel : Nat) (p : PDFParser σ)
    (pageNumber : Int) (k : ℚ) (h : pageNumber < 0 ∨ (p.pages.length : Int) < pageNumber) :
    GetPageBoxes rd fuel p pageNumber k = .ret ⟨[], DefaultBox⟩ p := by
  unfold GetPageBoxes
  rw [if_pos]
  rcases h with h | h
  · exact Or.inl h
  · exact Or.inr (by omega)

/-- C1: `GetPageBoxes(0, k)` does not return the empty box map: the guard
`pageNumber < 0 || pageNumber-1 >= len(pages)` lets page number 0 through and
`pages[-1]` panics, for every parser, reader and scale. -/
theorem GetPageBoxes_zero_panics {σ : Type} (rd : PDFTokenReader σ) (fuel : Nat)
    (p : PDFParser σ) (k : ℚ) : GetPageBoxes rd fuel p 0 k = .panic p := by
  unfold GetPageBoxes
  have h : ¬ ((0 : Int) < 0 ∨ (0 : Int) - 1 ≥ (p.pages.length : Int)) := by omega
  rw [if_neg h, if_pos (by decide)]

/-- C2 (as stated, refuted): for the box array `[200 0 0 300]` and `k = 1`,
`getPageBox` returns position (200, 0), not (0, 0); the size is (200, 300) and
the lower-left corner is (0, 0). -/
theorem getPageBox_unsorted_position :
    (getPageBox byteReader 1 (freshParser "" 0) unsortedPage MediaBox 1).value
        = some (some ⟨⟨200, 0⟩, ⟨200, 300⟩, ⟨0, 0⟩, ⟨200, 300⟩⟩)
      ∧ (⟨200, 0⟩ : PointType) ≠ ⟨0, 0⟩ := by
  refine ⟨?_, by simp⟩
  simp [getPageBox, unsortedPage, MediaBox, List.lookup, valueType, boxOfArray, numOf, boxOf,
    Outcome.value]

/-- C2 (amended): for a box entry that is an array of four numbers
`[x0 y0 x1 y1]` and a non-zero scale `k`, `getPageBox` returns the box whose
position is the first corner as stored, `(x0/k, y0/k)`, whose size is
`(|x0-x1|/k, |y0-y1|/k)` and whose lower-left corner is
`(min x0 x1 / k, min y0 y1 / k)`; it leaves the parser as it was. -/
theorem getPageBox_array_position {σ : Type} (rd : PDFTokenReader σ) (fuel : Nat)
    (p : PDFParser σ) (page : Dictionary) (boxIndex : String) (k x0 y0 x1 y1 : ℚ)
    (v0 v1 v2 v3 : Option Value) (_hk : k ≠ 0)
    (hbox : page.lookup ("/" ++ boxIndex) = some (.Array [v0, v1, v2, v3]))
    (h0 : numOf v0 = some x0) (h1 : numOf v1 = some y0)
    (h2 : numOf v2 = some x1) (h3 : numOf v3 = some y1) :
    ∃ box, getPageBox rd (fuel + 1) p page boxIndex k = .ret (some box) p
      ∧ box.position = ⟨x0 / k, y0 / k⟩
      ∧ box.size = ⟨|x0 - x1| / k, |y0 - y1| / k⟩
      ∧ box.lowerLeft = ⟨min x0 x1 / k, min y0 y1 / k⟩ := by
  refine ⟨boxOf x0 y0 x1 y1 k, ?_, rfl, rfl, rfl⟩
  simp [getPageBox, hbox, valueType, boxOfArray, h0, h1, h2, h3]

/-- Witness of `getPageBox_array_position`: the unsorted media box
`[200 0 0 300]` at scale 1 has position (200, 0) and size (200, 300). -/
theorem getPageBox_array_position_witness :
    ∃ box, getPageBox byteReader 1 (freshParser "" 0) unsortedPage MediaBox 1
        = .ret (some box) (freshParser "" 0)
      ∧ box.position = ⟨200 / 1, 0 / 1⟩
      ∧ box.size = ⟨|200 - 0| / 1, |0 - 300| / 1⟩
      ∧ box.lowerLeft = ⟨min 200 0 / 1, min 0 300 / 1⟩ :=
  getPageBox_array_position byteReader 0 (freshParser "" 0) unsortedPage MediaBox 1 200 0 0 300
    (some (.Numeric 200)) (some (.Numeric 0)) (some (.Numeric 0)) (some (.Numeric 300))
    one_ne_zero rfl (by simp [numOf]) (by simp [numOf]) (by simp [numOf]) (by simp [numOf])

/-! ### readValue -/

/-- C3: on `(a (nested) string) 7` the literal-string branch does not stop at
the matching close-paren: it counts every `)` upwards, reads to the end of the
source, and returns all 20 remaining bytes, the final `)` and ` 7` included. -/
theorem readValue_nested_string_overrun :
    readValue byteReader 40 (freshParser "(a (nested) string) 7" 0) none
      = .ret (some (.String "a (nested) string) 7"))
          (freshParser "(a (nested) string) 7" 21) := by
  rfl

/-- A token that `Atoi` accepts opens no composite value. -/
theorem Atoi_ok_not_keyword (tok : String) (n : Int) (h : Atoi tok = (n, true)) :
    tok ≠ "<" ∧ tok ≠ "<<" ∧ tok ≠ "[" ∧ tok ≠ "(" ∧ tok ≠ "stream" := by
  have key : ∀ s : String, (Atoi s).2 = false → tok ≠ s := by
    intro s hs heq
    rw [heq] at h
    rw [h] at hs
    exact Bool.noConfusion hs
  exact ⟨key _ (by decide), key _ (by decide), key _ (by decide), key _ (by decide),
    key _ (by decide)⟩

/-- The method `readValue` on an integer token is its numeric branch. -/
theorem readValue_of_Atoi {σ : Type} (rd : PDFTokenReader σ) (fuel : Nat) (p p1 : PDFParser σ)
    (arg : Option String) (tok : String) (n : Int)
    (hfetch : fetchToken rd p arg = (some tok, p1)) (hn : Atoi tok = (n, true)) :
    readValue rd (fuel + 1) p arg = readNumeric rd p1 n := by
  obtain ⟨h1, h2, h3, h4, h5⟩ := Atoi_ok_not_keyword tok n hn
  simp [readValue, hfetch, h1, h2, h3, h4, h5, readAtom, hn]

/-- C10: for a token `tok` that parses as the integer `n` (handed in, or read
when `nil` is handed in), `readValue` returns `ObjectRef{n, m}` and consumes
the next two tokens when `PeekTokens(2)` gives two tokens of which the first
parses as the integer `m` and the second is `obj` or `R`; in every other case
it returns `Numeric(n)` and consumes nothing beyond `tok`. -/
theorem readValue_integer_token {σ : Type} (rd : PDFTokenReader σ) (fuel : Nat)
    (p p1 : PDFParser σ) (arg : Option String) (tok : String) (n : Int)
    (hfetch : fetchToken rd p arg = (some tok, p1)) (hn : Atoi tok = (n, true)) :
    (∀ t0 t1 m, rd.PeekTokens p1.reader 2 = [t0, t1] → Atoi t0 = (m, true) →
        (t1 = "obj" ∨ t1 = "R") →
        readValue rd (fuel + 1) p arg
          = .ret (some (.ObjectRef ⟨n, m⟩)) (p1.withReader (rd.ReadTokens p1.reader 2)))
    ∧ ((¬ ∃ t0 t1 m, rd.PeekTokens p1.reader 2 = [t0, t1] ∧ Atoi t0 = (m, true) ∧
          (t1 = "obj" ∨ t1 = "R")) →
        readValue rd (fuel + 1) p arg = .ret (some (.Numeric n)) p1) := by
  rw [readValue_of_Atoi rd fuel p p1 arg tok n hfetch hn]
  constructor
  · intro t0 t1 m hpeek hm ht
    unfold readNumeric
    rw [hpeek]
    simp only [hm]
    rcases ht with ht | ht
    · simp [ht]
    · subst ht
      simp
  · intro hno
    unfold readNumeric
    split
    · next t0 t1 hpeek =>
      split
      · next number2 hm =>
        have hne : ¬ (t1 = "obj" ∨ t1 = "R") := fun ht => hno ⟨t0, t1, number2, hpeek, hm, ht⟩
        rw [not_or] at hne
        simp [hne.1, hne.2]
      · rfl
    · rfl

/-- Witness of `readValue_integer_token`: `12 0 R` and `12 0 obj` decode to
`ObjectRef{12, 0}` with the cursor behind the third token, and `12` before
`/Name` decodes to `Numeric(12)` with the cursor behind `12`. -/
theorem readValue_integer_token_witness :
    readValue byteReader 1 (freshParser "12 0 R" 0) none
        = .ret (some (.ObjectRef ⟨12, 0⟩)) (freshParser "12 0 R" 6)
      ∧ readValue byteReader 1 (freshParser "12 0 obj" 0) none
        = .ret (some (.ObjectRef ⟨12, 0⟩)) (freshParser "12 0 obj" 8)
      ∧ readValue byteReader 1 (freshParser "12 /Name 0 R" 0) none
        = .ret (some (.Numeric 12)) (freshParser "12 /Name 0 R" 2) :=
  ⟨(readValue_integer_token byteReader 0 (freshParser "12 0 R" 0) (freshParser "12 0 R" 2) none
      "12" 12 rfl rfl).1 "0" "R" 0 rfl rfl (Or.inr rfl),
   (readValue_integer_token byteReader 0 (freshParser "12 0 obj" 0) (freshParser "12 0 obj" 2)
      none "12" 12 rfl rfl).1 "0" "obj" 0 rfl rfl (Or.inl rfl),
   (readValue_integer_token byteReader 0 (freshParser "12 /Name 0 R" 0)
      (freshParser "12 /Name 0 R" 2) none "12" 12 rfl rfl).2 (by
        rintro ⟨t0, t1, m, hpeek, hm, -⟩
        have hp : byteReader.PeekTokens (freshParser "12 /Name 0 R" 2).reader 2 = ["/Name", "0"] :=
          rfl
        rw [hp] at hpeek
        injection hpeek with h0 _
        rw [← h0] at hm
        have hb : (Atoi "/Name").2 = true := congrArg Prod.snd hm
        exact absurd hb (by decide))⟩

/-! ### readXrefTable: the line loop -/

theorem Split_ne_nil (s : String) : Split s ≠ [] := by
  unfold Split
  generalize ([] : List Char) = cur
  induction s.data generalizing cur with
  | nil => simp [splitAux]
  | cons c cs ih =>
    unfold splitAux
    split
    · simp
    · exact ih _

/-- The loop body on a line, by the shape of the line. -/
theorem xrefLine_eq (start : Int) (x : Xref) (l : String) :
    xrefLine start x l =
      match xrefShape l with
      | .skip => .ok (start, x)
      | .range s e => .ok (s, if e > x.maxObject then { x with maxObject := e } else x)
      | .entry offset gen flag =>
        .ok (wrapInt64 (start + 1),
          if (x.xref.lookup ⟨start, gen⟩).isNone && flag == "n" then
            { x with xref := mapSet x.xref ⟨start, gen⟩ offset }
          else x)
      | .other line => .error ("Unexpected data in xref table: '" ++ line ++ "'") := by
  unfold xrefLine xrefShape
  by_cases h1 : TrimSpace l = ""
  · simp [h1]
  · by_cases h2 : TrimSpace l = "xref"
    · simp [h2]
    · simp only [h1, h2, ne_eq, not_false_eq_true, if_true, if_false, or_self]
      split <;> simp_all

theorem lookup_mapSet {α β : Type} [BEq α] [LawfulBEq α] (m : List (α × β)) (k k' : α) (v : β)
    (habs : m.lookup k = none) :
    (mapSet m k v).lookup k' = if k' == k then some v else m.lookup k' := by
  have hfilter : m.filter (fun e => !(e.1 == k)) = m := by
    rw [List.filter_eq_self]
    intro e he
    rw [List.lookup_eq_none_iff] at habs
    have h1 := habs e he
    have h2 : ¬ k = e.1 := by simpa using h1
    have h3 : ¬ e.1 = k := fun h => h2 h.symm
    simpa using h3
  unfold mapSet
  rw [hfilter, List.lookup_cons]
  by_cases h : k' == k <;> simp [h]

/-- The map after the loop answers a key from the map before the loop, and
else from the first in-use entry that the lines hold for the key. -/
theorem xrefLines_lookup (lines : List String) (start : Int) (x : Xref) (key : ObjectRef) :
    (xrefLines start x lines).1.2.xref.lookup key
      = (x.xref.lookup key).or ((inUseEntries start lines).lookup key) := by
  induction lines generalizing start x with
  | nil => simp [xrefLines, inUseEntries]
  | cons l rest ih =>
    cases h : xrefShape l with
    | skip => simp only [xrefLines, inUseEntries, xrefLine_eq, h, ih]
    | range s e =>
      simp only [xrefLines, inUseEntries, xrefLine_eq, h, ih]
      split <;> rfl
    | other line => simp [xrefLines, inUseEntries, xrefLine_eq, h]
    | entry offset gen flag =>
      simp only [xrefLines, inUseEntries, xrefLine_eq, h, ih]
      by_cases hflag : flag = "n"
      · subst hflag
        cases habs : x.xref.lookup ⟨start, gen⟩ with
        | none =>
          simp only [Option.isNone_none, beq_self_eq_true, Bool.and_self, if_true,
            List.singleton_append, List.lookup_cons]
          rw [lookup_mapSet _ _ _ _ habs]
          by_cases hk : key = ⟨start, gen⟩
          · subst hk
            simp [habs]
          · have hk' : (key == (⟨start, gen⟩ : ObjectRef)) = false := by simpa using hk
            simp [hk']
        | some o =>
          simp only [Option.isNone_some, Bool.false_and, if_true, List.singleton_append,
            List.lookup_cons, Bool.false_eq_true, if_false]
          by_cases hk : key = ⟨start, gen⟩
          · subst hk
            simp [habs]
          · have hk' : (key == (⟨start, gen⟩ : ObjectRef)) = false := by simpa using hk
            simp [hk']
      · have hf : (flag == "n") = false := by simpa using hflag
        simp [hf, hflag]

/-- The maximum after the loop is the maximum before it, raised by the `end`
fields of the two-field lines that the loop saw. -/
theorem xrefLines_maxObject (lines : List String) (start : Int) (x : Xref) :
    (xrefLines start x lines).1.2.maxObject
      = (rangeEnds (seenLines lines)).foldl max x.maxObject := by
  induction lines generalizing start x with
  | nil => simp [xrefLines, seenLines, rangeEnds]
  | cons l rest ih =>
    cases h : xrefShape l with
    | skip => simp only [xrefLines, seenLines, rangeEnds, xrefLine_eq, h, ih]
    | range s e =>
      simp only [xrefLines, seenLines, rangeEnds, xrefLine_eq, h, ih, List.foldl_cons]
      congr 1
      by_cases he : e > x.maxObject
      · simp [he, max_eq_right (le_of_lt he)]
      · simp [he, max_eq_left (not_lt.mp he)]
    | other line => simp [xrefLines, seenLines, rangeEnds, xrefLine_eq, h]
    | entry offset gen flag =>
      simp only [xrefLines, seenLines, rangeEnds, xrefLine_eq, h, ih]
      split <;> rfl

theorem foldl_max_largest (es : List Int) (m : Int) (hm : 0 ≤ m) (h : ∀ e ∈ es, 0 ≤ e) :
    es.foldl max m = max m (largest es) := by
  induction es generalizing m with
  | nil => simp [largest, hm]
  | cons e rest ih =>
    have he : 0 ≤ e := h e (List.mem_cons_self _ _)
    have hrest : ∀ e' ∈ rest, 0 ≤ e' := fun e' h' => h e' (List.mem_cons_of_mem _ h')
    rw [List.foldl_cons, ih (max m e) (le_max_of_le_left hm) hrest]
    cases rest with
    | nil => simp [largest, he, hm]
    | cons e2 rest2 => simp [largest, max_assoc]

theorem mem_seenLines (lines : List String) (l : String) (h : l ∈ seenLines lines) : l ∈ lines := by
  induction lines with
  | nil => simp [seenLines] at h
  | cons l0 rest ih =>
    unfold seenLines at h
    split at h
    · simp at h
    · rcases List.mem_cons.mp h with h1 | h1
      · exact h1 ▸ List.mem_cons_self _ _
      · exact List.mem_cons_of_mem _ (ih h1)

/-- A two-field line has the shape `range` with the `Atoi` values of its fields. -/
theorem xrefShape_range (l : String) (s e : Int) (h : xrefShape l = .range s e) :
    ∃ a b, Split (TrimSpace l) = [a, b] ∧ s = (Atoi a).1 ∧ e = (Atoi b).1 := by
  unfold xrefShape at h
  split at h
  · exact XrefShape.noConfusion h
  · split at h
    · exact XrefShape.noConfusion h
    · next a b hsplit =>
      injection h with h1 h2
      exact ⟨a, b, hsplit, h1.symm, h2.symm⟩
    · exact XrefShape.noConfusion h
    · exact XrefShape.noConfusion h

theorem wellFormedRanges_tail (l : String) (rest : List String)
    (h : wellFormedRanges (l :: rest) = true) : wellFormedRanges rest = true := by
  unfold wellFormedRanges at h ⊢
  rw [List.all_cons, Bool.and_eq_true] at h
  exact h.2

theorem wellFormedRanges_head (l : String) (rest : List String) (a b : String)
    (h : wellFormedRanges (l :: rest) = true) (hs : Split (TrimSpace l) = [a, b]) :
    0 ≤ (Atoi b).1 := by
  unfold wellFormedRanges at h
  rw [List.all_cons, Bool.and_eq_true] at h
  have h1 := h.1
  simp only [hs, Bool.and_eq_true, decide_eq_true_eq] at h1
  exact h1.2.2

theorem rangeEnds_nonneg (lines : List String) (h : wellFormedRanges lines = true) :
    ∀ e ∈ rangeEnds lines, 0 ≤ e := by
  induction lines with
  | nil => simp [rangeEnds]
  | cons l rest ih =>
    have hrest := wellFormedRanges_tail l rest h
    intro e he
    unfold rangeEnds at he
    split at he
    · next s e0 hshape =>
      rcases List.mem_cons.mp he with h1 | h1
      · obtain ⟨a, b, hsplit, -, hb⟩ := xrefShape_range l s e0 hshape
        rw [h1, hb]
        exact wellFormedRanges_head l rest a b h hsplit
      · exact ih hrest e h1
    · exact ih hrest e he

theorem wellFormedRanges_seen (lines : List String) (h : wellFormedRanges lines = true) :
    wellFormedRanges (seenLines lines) = true := by
  induction lines with
  | nil => rfl
  | cons l rest ih =>
    have hrest := ih (wellFormedRanges_tail l rest h)
    unfold seenLines
    split
    · rfl
    · unfold wellFormedRanges at h hrest ⊢
      rw [List.all_cons, Bool.and_eq_true] at h ⊢
      exact ⟨h.1, hrest⟩

theorem largest_nonneg (es : List Int) (h : ∀ e ∈ es, 0 ≤ e) : 0 ≤ largest es := by
  induction es with
  | nil => simp [largest]
  | cons e rest ih =>
    cases rest with
    | nil => simpa [largest] using h e (List.mem_cons_self _ _)
    | cons e2 rest2 =>
      simp only [largest]
      exact le_max_of_le_left (h e (List.mem_cons_self _ _))

/-- The loop ends without an error exactly when it saw every line. -/
theorem xrefLines_no_error (lines : List String) (start : Int) (x : Xref) :
    (xrefLines start x lines).2 = none ↔ seenLines lines = lines := by
  induction lines generalizing start x with
  | nil => simp [xrefLines, seenLines]
  | cons l rest ih =>
    cases h : xrefShape l with
    | skip => simp only [xrefLines, seenLines, xrefLine_eq, h, ih, List.cons.injEq, true_and]
    | range s e => simp only [xrefLines, seenLines, xrefLine_eq, h, ih, List.cons.injEq, true_and]
    | entry offset gen flag =>
      simp only [xrefLines, seenLines, xrefLine_eq, h, ih, List.cons.injEq, true_and]
    | other line => simp [xrefLines, seenLines, xrefLine_eq, h]

/-- A malformed line has the shape `other`. -/
theorem xrefShape_malformed (l : String) (h : malformedLine l) :
    xrefShape l = .other (TrimSpace l) := by
  obtain ⟨h1, h2, h3, h4⟩ := h
  unfold xrefShape
  rw [if_neg (by simp [h1, h2])]
  split
  · next hs => exact absurd hs (Split_ne_nil _)
  · next a b hs => simp [hs] at h3
  · next a b c hs => simp [hs] at h4
  · rfl

/-- The loop ends with the format error of the first malformed line, if the
lines hold one. -/
theorem xrefLines_malformed (lines : List String) (start : Int) (x : Xref)
    (h : ∃ l ∈ lines, malformedLine l) :
    ∃ l ∈ lines, malformedLine l ∧
      (xrefLines start x lines).2 = some ("Unexpected data in xref table: '" ++ TrimSpace l ++ "'") := by
  induction lines generalizing start x with
  | nil => simp at h
  | cons l0 rest ih =>
    by_cases h0 : malformedLine l0
    · refine ⟨l0, List.mem_cons_self _ _, h0, ?_⟩
      simp [xrefLines, xrefLine_eq, xrefShape_malformed l0 h0]
    · have hrest : ∃ l ∈ rest, malformedLine l := by
        obtain ⟨l, hl, hm⟩ := h
        rcases List.mem_cons.mp hl with h1 | h1
        · exact absurd (h1 ▸ hm) h0
        · exact ⟨l, h1, hm⟩
      cases hs : xrefShape l0 with
      | other line =>
        exfalso
        apply h0
        unfold xrefShape at hs
        split at hs
        · exact XrefShape.noConfusion hs
        · next hne =>
          rw [not_or] at hne
          refine ⟨hne.1, hne.2, ?_, ?_⟩
          · intro hlen
            split at hs
            · exact XrefShape.noConfusion hs
            · exact XrefShape.noConfusion hs
            · exact XrefShape.noConfusion hs
            · next hn2 _ =>
              match hsp : Split (TrimSpace l0), hlen with
              | [a, b], _ => exact hn2 a b hsp
          · intro hlen
            split at hs
            · exact XrefShape.noConfusion hs
            · exact XrefShape.noConfusion hs
            · exact XrefShape.noConfusion hs
            · next _ hn3 =>
              match hsp : Split (TrimSpace l0), hlen with
              | [a, b, c], _ => exact hn3 a b c hsp
      | skip =>
        obtain ⟨l, hl, hm, he⟩ := ih start x hrest
        exact ⟨l, List.mem_cons_of_mem _ hl, hm, by simpa [xrefLines, xrefLine_eq, hs] using he⟩
      | range s e =>
        obtain ⟨l, hl, hm, he⟩ := ih s _ hrest
        exact ⟨l, List.mem_cons_of_mem _ hl, hm, by simpa [xrefLines, xrefLine_eq, hs] using he⟩
      | entry offset gen flag =>
        obtain ⟨l, hl, hm, he⟩ := ih _ _ hrest
        exact ⟨l, List.mem_cons_of_mem _ hl, hm, by simpa [xrefLines, xrefLine_eq, hs] using he⟩

/-! ### readValue touches the reader only -/

theorem withReader_withReader {σ : Type} (p : PDFParser σ) (r r' : σ) :
    (p.withReader r).withReader r' = p.withReader r' := rfl

theorem OnlyReader.ret {σ α : Type} (p : PDFParser σ) (a : α) (r : σ) :
    OnlyReader p (Outcome.ret a (p.withReader r)) := by
  intro q hq
  exact ⟨r, by simpa [Outcome.parser] using hq.symm⟩

theorem OnlyReader.ret_self {σ α : Type} (p : PDFParser σ) (a : α) :
    OnlyReader p (Outcome.ret a p) := by
  intro q hq
  exact ⟨p.reader, by simpa [Outcome.parser, PDFParser.withReader] using hq.symm⟩

theorem OnlyReader.outOfFuel {σ α : Type} (p : PDFParser σ) :
    OnlyReader p (Outcome.outOfFuel : Outcome σ α) := by
  intro q hq
  simp [Outcome.parser] at hq

theorem OnlyReader.step {σ α : Type} (p : PDFParser σ) (r : σ) (o : Outcome σ α)
    (h : OnlyReader (p.withReader r) o) : OnlyReader p o := by
  intro q hq
  obtain ⟨r', hr'⟩ := h q hq
  exact ⟨r', by rw [hr', withReader_withReader]⟩

theorem OnlyReader.trans {σ α : Type} (p p1 : PDFParser σ) (o : Outcome σ α)
    (h1 : ∃ r, p1 = p.withReader r) (h : OnlyReader p1 o) : OnlyReader p o := by
  obtain ⟨r, rfl⟩ := h1
  exact OnlyReader.step p r o h

theorem readString_onlyReader {σ : Type} (rd : PDFTokenReader σ) (fuel : Nat) (p : PDFParser σ)
    (openBrackets : Int) (buf : List Char) :
    OnlyReader p (readString rd fuel p openBrackets buf) := by
  induction fuel generalizing p openBrackets buf with
  | zero => exact OnlyReader.outOfFuel p
  | succ fuel ih =>
    unfold readString
    split
    · split
      · exact OnlyReader.ret p _ _
      · split
        · exact OnlyReader.step p _ _ (ih _ _ _)
        · split
          · exact OnlyReader.step p _ _ (ih _ _ _)
          · split
            · split
              exact OnlyReader.step p _ _ (ih _ _ _)
            · exact OnlyReader.step p _ _ (ih _ _ _)
    · exact OnlyReader.ret_self p _

theorem readNumeric_onlyReader {σ : Type} (rd : PDFTokenReader σ) (p : PDFParser σ) (n : Int) :
    OnlyReader p (readNumeric rd p n) := by
  unfold readNumeric
  split
  · split
    · split
      · exact OnlyReader.ret p _ _
      · split
        · exact OnlyReader.ret p _ _
        · exact OnlyReader.ret_self p _
    · exact OnlyReader.ret_self p _
  · exact OnlyReader.ret_self p _

theorem readAtom_onlyReader {σ : Type} (rd : PDFTokenReader σ) (p : PDFParser σ) (str : String) :
    OnlyReader p (readAtom rd p str) := by
  unfold readAtom
  split
  · exact readNumeric_onlyReader rd p _
  · split
    · exact OnlyReader.ret_self p _
    · split
      · exact OnlyReader.ret_self p _
      · split
        · exact OnlyReader.ret_self p _
        · split
          · exact OnlyReader.ret_self p _
          · exact OnlyReader.ret_self p _

theorem fetchToken_frame {σ : Type} (rd : PDFTokenReader σ) (p : PDFParser σ)
    (token : Option String) : ∃ r, (fetchToken rd p token).2 = p.withReader r := by
  cases token with
  | none => exact ⟨_, rfl⟩
  | some t => exact ⟨p.reader, rfl⟩

theorem readValue_family_onlyReader {σ : Type} (rd : PDFTokenReader σ) (fuel : Nat) :
    (∀ (p : PDFParser σ) token, OnlyReader p (readValue rd fuel p token))
    ∧ (∀ (p : PDFParser σ) result, OnlyReader p (readDict rd fuel p result))
    ∧ (∀ (p : PDFParser σ) result, OnlyReader p (readArray rd fuel p result)) := by
  induction fuel with
  | zero =>
    refine ⟨fun p _ => ?_, fun p _ => ?_, fun p _ => ?_⟩
    · unfold readValue; exact OnlyReader.outOfFuel p
    · unfold readDict; exact OnlyReader.outOfFuel p
    · unfold readArray; exact OnlyReader.outOfFuel p
  | succ fuel ih =>
    obtain ⟨ihV, ihD, ihA⟩ := ih
    refine ⟨fun p token => ?_, fun p result => ?_, fun p result => ?_⟩
    · unfold readValue
      apply OnlyReader.trans p _ _ (fetchToken_frame rd p token)
      simp only
      split
      · exact OnlyReader.ret _ _ _
      · split
        · exact ihD _ _
        · split
          · exact ihA _ _
          · split
            · exact readString_onlyReader rd _ _ _ _
            · split
              · exact OnlyReader.ret_self _ _
              · exact readAtom_onlyReader rd _ _
    · unfold readDict
      split
      · exact OnlyReader.ret p _ _
      · split
        · exact OnlyReader.ret p _ _
        · next key r _ _ =>
          have hv := ihV (p.withReader r) none
          split
          · next p1 heq =>
            rw [heq] at hv
            exact OnlyReader.step p r _ (by
              intro q hq
              exact hv q (by simpa [Outcome.parser] using hq))
          · next value p1 heq =>
            rw [heq] at hv
            obtain ⟨r1, hr1⟩ := hv p1 rfl
            have hp1 : ∃ r', p1 = p.withReader r' := ⟨r1, by rw [hr1, withReader_withReader]⟩
            split
            · intro q hq
              obtain ⟨r', hr'⟩ := hp1
              exact ⟨r', by rw [← hr']; simpa [Outcome.parser] using hq.symm⟩
            · exact OnlyReader.trans p p1 _ hp1 (ihD _ _)
          · next p1 heq =>
            rw [heq] at hv
            exact OnlyReader.step p r _ (by
              intro q hq
              exact hv q (by simpa [Outcome.parser] using hq))
          · exact OnlyReader.outOfFuel p
    · unfold readArray
      split
      next token r _ =>
      split
      · exact OnlyReader.ret p _ _
      · have hv := ihV (p.withReader r) token
        split
        · next value p1 heq =>
          rw [heq] at hv
          obtain ⟨r1, hr1⟩ := hv p1 rfl
          have hp1 : ∃ r', p1 = p.withReader r' := ⟨r1, by rw [hr1, withReader_withReader]⟩
          exact OnlyReader.trans p p1 _ hp1 (ihA _ _)
        · next p1 heq =>
          rw [heq] at hv
          exact OnlyReader.step p r _ (by
            intro q hq
            exact hv q (by simpa [Outcome.parser] using hq))
        · exact OnlyReader.outOfFuel p

theorem readValue_onlyReader {σ : Type} (rd : PDFTokenReader σ) (fuel : Nat) (p : PDFParser σ)
    (token : Option String) : OnlyReader p (readValue rd fuel p token) :=
  (readValue_family_onlyReader rd fuel).1 p token

/-! ### resolveObject -/

/-- Whenever `resolveObject` returns, the stream position is the one before
the call. -/
theorem resolveObject_returns_restores {σ : Type} (rd : PDFTokenReader σ) (pos : σ → Int)
    (laws : SeekLaws rd pos) (fuel : Nat) (p q : PDFParser σ) (spec : Option Value)
    (v : Option ObjectDeclaration) (h : resolveObject rd fuel p spec = .ret v q) :
    pos q.reader = pos p.reader := by
  have hback : ∀ s, pos (rd.Seek s (rd.Seek p.reader 0 1).1.1 0).2 = pos p.reader := by
    intro s
    rw [laws.seek s _ (by rw [laws.tell]; exact laws.nonneg _), laws.tell]
  have hbody : ∀ (p0 : PDFParser σ) header,
      resolveBody rd fuel p0 header (rd.Seek p.reader 0 1).1.1 = .ret v q →
      pos q.reader = pos p.reader := by
    intro p0 header hb
    unfold resolveBody at hb
    split at hb
    · split at hb
      · injection hb with _ hq
        rw [← hq]
        exact hback _
      · exact Outcome.noConfusion hb
      · exact Outcome.noConfusion hb
    · exact Outcome.noConfusion hb
  unfold resolveObject at h
  split at h
  · injection h with _ hq
    rw [hq]
  · split at h
    · simp only at h
      split at h
      · split at h
        · exact hbody _ _ h
        · split at h
          · exact hbody _ _ h
          · injection h with _ hq
            rw [← hq]
            exact hback _
      · exact Outcome.noConfusion h
      · exact Outcome.noConfusion h
    · injection h with _ hq
      rw [hq]
  · injection h with _ hq
    rw [hq]
  · injection h with _ hq
    rw [hq]

/-- C4: with object 1 recorded at offset 0 of `7 1 0 obj 5 endobj` and the
cursor at byte 4, `resolveObject` decodes the number 7 as header, finds
`1 0 obj` by the linear scan, and panics on `header.(ObjectRef)` with the
cursor at byte 9: the position of before the call is not restored. -/
theorem resolveObject_panic_leaves_position :
    (resolveObject byteReader 10 (withXref (freshParser driftedSource 4) [(⟨1, 0⟩, 0)])
        (some (.ObjectRef ⟨1, 0⟩))).panicked = true
      ∧ (resolveObject byteReader 10 (withXref (freshParser driftedSource 4) [(⟨1, 0⟩, 0)])
        (some (.ObjectRef ⟨1, 0⟩))).position = some 9
      ∧ (withXref (freshParser driftedSource 4) [(⟨1, 0⟩, 0)]).reader.pos = 4 :=
  ⟨rfl, rfl, rfl⟩

/-- C5: with object 1 recorded at the header of object 2 in
`2 0 obj 5 endobj 1 0 obj 7 endobj`, `resolveObject` finds `1 0 obj` by the
linear scan and decodes the value 7 behind it, but returns a declaration with
object number 2, the number of the header it decoded at the recorded offset. -/
theorem resolveObject_scan_wrong_number :
    (resolveObject byteReader 10 (withXref (freshParser swappedSource 3) [(⟨1, 0⟩, 0)])
        (some (.ObjectRef ⟨1, 0⟩))).value = some (some ⟨2, 0, [.Numeric 7]⟩)
      ∧ (resolveObject byteReader 10 (withXref (freshParser swappedSource 3) [(⟨1, 0⟩, 17)])
        (some (.ObjectRef ⟨1, 0⟩))).value = some (some ⟨1, 0, [.Numeric 7]⟩) :=
  ⟨rfl, rfl⟩

/-! ### readXrefTable -/

/-- A line of shape `other` is malformed. -/
theorem malformed_of_other (l line : String) (hs : xrefShape l = .other line) :
    malformedLine l := by
  unfold xrefShape at hs
  split at hs
  · exact XrefShape.noConfusion hs
  · next hne =>
    rw [not_or] at hne
    refine ⟨hne.1, hne.2, ?_, ?_⟩
    · intro hlen
      split at hs
      · exact XrefShape.noConfusion hs
      · exact XrefShape.noConfusion hs
      · exact XrefShape.noConfusion hs
      · next hn2 _ =>
        match hsp : Split (TrimSpace l), hlen with
        | [a, b], _ => exact hn2 a b hsp
    · intro hlen
      split at hs
      · exact XrefShape.noConfusion hs
      · exact XrefShape.noConfusion hs
      · exact XrefShape.noConfusion hs
      · next _ hn3 =>
        match hsp : Split (TrimSpace l), hlen with
        | [a, b, c], _ => exact hn3 a b c hsp

/-- Without a malformed line the loop sees every line. -/
theorem seenLines_eq_self (lines : List String) (h : ∀ l ∈ lines, ¬ malformedLine l) :
    seenLines lines = lines := by
  induction lines with
  | nil => rfl
  | cons l rest ih =>
    have hrest : ∀ l' ∈ rest, ¬ malformedLine l' := fun l' hl' => h l' (List.mem_cons_of_mem _ hl')
    unfold seenLines
    split
    · next line hs => exact absurd (malformed_of_other l line hs) (h l (List.mem_cons_self _ _))
    · rw [ih hrest]

/-- Once the lines are read, whatever parser `readXrefTable` leaves behind (at
its return or at a panic) carries the object maximum and the map that the line
loop computed. -/
theorem readXrefTable_xref {σ : Type} (rd : PDFTokenReader σ) (fuel : Nat) (p q : PDFParser σ)
    (offset pos : Int) (r r1 : σ) (lines : List String)
    (hseek : rd.Seek p.reader offset 0 = ((pos, none), r))
    (hlines : rd.ReadLinesToToken r "trailer" = ((lines, true), r1))
    (hq : (readXrefTable rd fuel p offset).parser = some q) :
    q.xref.maxObject = (xrefLines 1 (xrefInit p.xref offset) lines).1.2.maxObject
      ∧ q.xref.xref = (xrefLines 1 (xrefInit p.xref offset) lines).1.2.xref := by
  unfold readXrefTable at hq
  rw [hseek] at hq
  simp only [hlines] at hq
  generalize xrefLines 1 (xrefInit p.xref offset) lines = out at hq ⊢
  obtain ⟨⟨c, x1⟩, err⟩ := out
  cases err with
  | some e =>
    simp only [Outcome.parser, Option.some.injEq] at hq
    rw [← hq]
    exact ⟨rfl, rfl⟩
  | none =>
    simp only at hq
    split at hq
    · simp only [Outcome.parser, Option.some.injEq] at hq
      rw [← hq]
      exact ⟨rfl, rfl⟩
    · split at hq
      · simp only [Outcome.parser, Option.some.injEq] at hq
        rw [← hq]
        exact ⟨rfl, rfl⟩
      · next r3 _ =>
        have hfr := readValue_onlyReader rd fuel
          ({ p with reader := (rd.ReadToken r3).2, xref := x1 } : PDFParser σ) none
        split at hq
        · next trailer p2 heq =>
          rw [heq] at hfr
          obtain ⟨r', hr'⟩ := hfr p2 rfl
          simp only [Outcome.parser, Option.some.injEq] at hq
          rw [← hq, hr']
          exact ⟨rfl, rfl⟩
        · next v p2 _ heq =>
          rw [heq] at hfr
          obtain ⟨r', hr'⟩ := hfr p2 rfl
          simp only [Outcome.parser, Option.some.injEq] at hq
          rw [← hq, hr']
          exact ⟨rfl, rfl⟩
        · next p2 heq =>
          rw [heq] at hfr
          obtain ⟨r', hr'⟩ := hfr p2 rfl
          simp only [Outcome.parser, Option.some.injEq] at hq
          rw [← hq, hr']
          exact ⟨rfl, rfl⟩
        · simp [Outcome.parser] at hq

/-- C6: on a fresh parser, once the reader has handed over the lines, the map
that `readXrefTable` leaves answers every key with the offset of the first
in-use (flag `n`) three-field line that addresses the key, so a later line
for the same key never overwrites it; a three-field line whose flag is not `n`
leaves the xref state as it is, and every three-field line moves the cursor
on by one (in 64-bit arithmetic), whatever its flag. -/
theorem readXrefTable_first_in_use {σ : Type} (rd : PDFTokenReader σ) (fuel : Nat)
    (p q : PDFParser σ) (offset pos : Int) (r r1 : σ) (lines : List String)
    (hfresh : p.xref.xrefLocation = 0)
    (hseek : rd.Seek p.reader offset 0 = ((pos, none), r))
    (hlines : rd.ReadLinesToToken r "trailer" = ((lines, true), r1))
    (hq : (readXrefTable rd fuel p offset).parser = some q) :
    (∀ key, q.xref.xref.lookup key = (inUseEntries 1 lines).lookup key)
    ∧ (∀ start x l off gen flag, xrefShape l = .entry off gen flag →
        ∃ x1, xrefLine start x l = .ok (wrapInt64 (start + 1), x1)
          ∧ (flag ≠ "n" → x1 = x)
          ∧ (minInt64 ≤ start → start < maxInt64 → wrapInt64 (start + 1) = start + 1)) := by
  constructor
  · intro key
    rw [(readXrefTable_xref rd fuel p q offset pos r r1 lines hseek hlines hq).2,
      xrefLines_lookup]
    simp [xrefInit, hfresh]
  · intro start x l off gen flag hs
    rw [xrefLine_eq, hs]
    refine ⟨_, rfl, ?_, ?_⟩
    · intro hflag
      have hf : (flag == "n") = false := by simpa using hflag
      simp [hf]
    · intro hge hlt
      unfold wrapInt64
      unfold maxInt64 at hlt
      unfold minInt64 at hge
      rw [Int.emod_eq_of_lt (by omega) (by omega)]
      omega

/-- Witness of `readXrefTable_first_in_use`: on `plainSource`, where object 1
has the in-use lines `0000000017 00000 n` and, later, `0000000099 00000 n`,
the map answers (1, 0) with 17. -/
theorem readXrefTable_first_in_use_witness :
    (readXrefTable byteReader 10 (freshParser plainSource 0) 0).parser = some plainResult
      ∧ inUseEntries 1 plainLines = [(⟨1, 0⟩, 17), (⟨1, 0⟩, 99)]
      ∧ plainResult.xref.xref.lookup ⟨1, 0⟩ = some 17
      ∧ ∀ key, plainResult.xref.xref.lookup key = (inUseEntries 1 plainLines).lookup key :=
  ⟨rfl, rfl, rfl,
    (readXrefTable_first_in_use byteReader 10 (freshParser plainSource 0) plainResult 0 0
      ⟨plainSource.data, 0⟩ ⟨plainSource.data, 70⟩ plainLines rfl rfl rfl rfl).1⟩

/-- C7: on a fresh parser, once the reader has handed over the lines, and when
every two-field line holds two non-negative integers, the object maximum that
`readXrefTable` leaves is the largest `end` of the two-field lines it saw (0
when there is none), which are all two-field lines unless a malformed line
ended the loop; a three-field line never changes the maximum. -/
theorem readXrefTable_maxObject {σ : Type} (rd : PDFTokenReader σ) (fuel : Nat)
    (p q : PDFParser σ) (offset pos : Int) (r r1 : σ) (lines : List String)
    (hfresh : p.xref.xrefLocation = 0)
    (hseek : rd.Seek p.reader offset 0 = ((pos, none), r))
    (hlines : rd.ReadLinesToToken r "trailer" = ((lines, true), r1))
    (hwf : wellFormedRanges lines = true)
    (hq : (readXrefTable rd fuel p offset).parser = some q) :
    q.xref.maxObject = largest (rangeEnds (seenLines lines))
    ∧ ((∀ l ∈ lines, ¬ malformedLine l) → q.xref.maxObject = largest (rangeEnds lines))
    ∧ (∀ start x l off gen flag, xrefShape l = .entry off gen flag →
        ∃ c x1, xrefLine start x l = .ok (c, x1) ∧ x1.maxObject = x.maxObject) := by
  have hmax : q.xref.maxObject = largest (rangeEnds (seenLines lines)) := by
    rw [(readXrefTable_xref rd fuel p q offset pos r r1 lines hseek hlines hq).1,
      xrefLines_maxObject]
    have hnn := rangeEnds_nonneg (seenLines lines) (wellFormedRanges_seen lines hwf)
    have h0 : (xrefInit p.xref offset).maxObject = 0 := by simp [xrefInit, hfresh]
    rw [h0, foldl_max_largest _ 0 (le_refl 0) hnn]
    exact max_eq_right (largest_nonneg _ hnn)
  refine ⟨hmax, ?_, ?_⟩
  · intro hall
    rw [hmax, seenLines_eq_self lines hall]
  · intro start x l off gen flag hs
    rw [xrefLine_eq, hs]
    refine ⟨_, _, rfl, ?_⟩
    split <;> rfl

/-- Witness of `readXrefTable_maxObject`: on `plainSource`, with the two-field
lines `0 2` and `1 1`, the object maximum is 2. -/
theorem readXrefTable_maxObject_witness :
    wellFormedRanges plainLines = true
      ∧ (readXrefTable byteReader 10 (freshParser plainSource 0) 0).parser = some plainResult
      ∧ rangeEnds (seenLines plainLines) = [2, 1]
      ∧ plainResult.xref.maxObject = largest (rangeEnds (seenLines plainLines)) :=
  ⟨rfl, rfl, rfl,
    (readXrefTable_maxObject byteReader 10 (freshParser plainSource 0) plainResult 0 0
      ⟨plainSource.data, 0⟩ ⟨plainSource.data, 70⟩ plainLines rfl rfl rfl rfl rfl).1⟩

/-- C8 (as stated, refuted): the line `xref` of `plainSource` is non-empty
after trimming and has one field, neither two nor three, and `readXrefTable`
skips it and returns no error. -/
theorem readXrefTable_skips_xref_keyword :
    (byteReader.ReadLinesToToken (freshParser plainSource 0).reader "trailer").1
        = (plainLines, true)
      ∧ "xref" ∈ plainLines
      ∧ TrimSpace "xref" ≠ ""
      ∧ (Split (TrimSpace "xref")).length = 1
      ∧ (readXrefTable byteReader 10 (freshParser plainSource 0) 0).value = some none :=
  ⟨rfl, by decide, by decide, by decide, rfl⟩

/-- C8 (amended): once the reader has handed over the lines, `readXrefTable`
returns the format error of the first malformed line whenever some line is
malformed, where a malformed line is one that is non-empty after trimming, is
not the keyword `xref`, and has neither two nor three fields. -/
theorem readXrefTable_malformed_line {σ : Type} (rd : PDFTokenReader σ) (fuel : Nat)
    (p : PDFParser σ) (offset pos : Int) (r r1 : σ) (lines : List String)
    (hseek : rd.Seek p.reader offset 0 = ((pos, none), r))
    (hlines : rd.ReadLinesToToken r "trailer" = ((lines, true), r1))
    (hbad : ∃ l ∈ lines, malformedLine l) :
    ∃ l ∈ lines, malformedLine l ∧ ∃ q, readXrefTable rd fuel p offset
      = .ret (some ("Unexpected data in xref table: '" ++ TrimSpace l ++ "'")) q := by
  obtain ⟨l, hl, hm, herr⟩ := xrefLines_malformed lines 1 (xrefInit p.xref offset) hbad
  refine ⟨l, hl, hm, ?_⟩
  unfold readXrefTable
  rw [hseek]
  simp only [hlines]
  generalize xrefLines 1 (xrefInit p.xref offset) lines = out at herr ⊢
  obtain ⟨⟨c, x1⟩, err⟩ := out
  simp only at herr
  subst herr
  exact ⟨_, rfl⟩

/-- Witness of `readXrefTable_malformed_line`: the one-field line `bogus` makes
`readXrefTable` return the format error. -/
theorem readXrefTable_malformed_line_witness :
    malformedLine "bogus"
      ∧ ∃ l ∈ ["xref", "0 1", "bogus", ""], malformedLine l ∧
        ∃ q, readXrefTable byteReader 10 (freshParser bogusSource 0) 0
          = .ret (some ("Unexpected data in xref table: '" ++ TrimSpace l ++ "'")) q :=
  ⟨by unfold malformedLine; decide,
    readXrefTable_malformed_line byteReader 10 (freshParser bogusSource 0) 0 0
      ⟨bogusSource.data, 0⟩ ⟨bogusSource.data, 15⟩ ["xref", "0 1", "bogus", ""] rfl rfl
      ⟨"bogus", by decide, by unfold malformedLine; decide⟩⟩

/-- C9: `readXrefTable` panics on the type assertion `trailer.(Dictionary)`
when the value after `trailer` is an array, a number, or missing; it returns
no error and stores the value when it is a dictionary. -/
theorem readXrefTable_trailer_not_dictionary :
    (readXrefTable byteReader 10 (freshParser arrayTrailerSource 0) 0).panicked = true
      ∧ (readXrefTable byteReader 10 (freshParser numberTrailerSource 0) 0).panicked = true
      ∧ (readXrefTable byteReader 10 (freshParser noTrailerSource 0) 0).panicked = true
      ∧ readXrefTable byteReader 10 (freshParser plainSource 0) 0 = .ret none plainResult :=
  ⟨rfl, rfl, rfl, rfl⟩

/-! ### More fuel does not change a result -/

theorem readString_fuel_succ {σ : Type} (rd : PDFTokenReader σ) (fuel : Nat) (p : PDFParser σ)
    (openBrackets : Int) (buf : List Char)
    (h : readString rd fuel p openBrackets buf ≠ .outOfFuel) :
    readString rd (fuel + 1) p openBrackets buf = readString rd fuel p openBrackets buf := by
  induction fuel generalizing p openBrackets buf with
  | zero => exact absurd rfl h
  | succ fuel ih =>
    unfold readString at h ⊢
    split
    · rename_i hpos
      rw [if_pos hpos] at h
      split
      · rfl
      · rename_i b r heq
        rw [heq] at h
        simp only at h
        split
        · rename_i hb
          rw [if_pos hb] at h
          exact ih _ _ _ h
        · rename_i hb
          rw [if_neg hb] at h
          split
          · rename_i hb2
            rw [if_pos hb2] at h
            exact ih _ _ _ h
          · rename_i hb2
            rw [if_neg hb2] at h
            split
            · rename_i hb3
              rw [if_pos hb3] at h
              exact ih _ _ _ h
            · rename_i hb3
              rw [if_neg hb3] at h
              exact ih _ _ _ h
    · rfl

theorem readValue_family_fuel_succ {σ : Type} (rd : PDFTokenReader σ) (fuel : Nat) :
    (∀ (p : PDFParser σ) token, readValue rd fuel p token ≠ .outOfFuel →
        readValue rd (fuel + 1) p token = readValue rd fuel p token)
    ∧ (∀ (p : PDFParser σ) result, readDict rd fuel p result ≠ .outOfFuel →
        readDict rd (fuel + 1) p result = readDict rd fuel p result)
    ∧ (∀ (p : PDFParser σ) result, readArray rd fuel p result ≠ .outOfFuel →
        readArray rd (fuel + 1) p result = readArray rd fuel p result) := by
  induction fuel with
  | zero =>
    refine ⟨fun p t h => ?_, fun p t h => ?_, fun p t h => ?_⟩
    · exact absurd (by unfold readValue; rfl) h
    · exact absurd (by unfold readDict; rfl) h
    · exact absurd (by unfold readArray; rfl) h
  | succ fuel ih =>
    obtain ⟨ihV, ihD, ihA⟩ := ih
    refine ⟨fun p token h => ?_, fun p result h => ?_, fun p result h => ?_⟩
    · unfold readValue at h ⊢
      simp only at h ⊢
      split
      · rfl
      · rename_i h1
        rw [if_neg h1] at h
        split
        · rename_i h2
          rw [if_pos h2] at h
          exact ihD _ _ h
        · rename_i h2
          rw [if_neg h2] at h
          split
          · rename_i h3
            rw [if_pos h3] at h
            exact ihA _ _ h
          · rename_i h3
            rw [if_neg h3] at h
            split
            · rename_i h4
              rw [if_pos h4] at h
              exact readString_fuel_succ rd _ _ _ _ h
            · rfl
    · unfold readDict at h ⊢
      split
      · rfl
      · rename_i key r heq
        rw [heq] at h
        simp only at h
        split
        · rfl
        · rename_i hkey
          rw [if_neg hkey] at h
          cases hv : readValue rd fuel (p.withReader r) none with
          | outOfFuel =>
            rw [hv] at h
            exact absurd rfl h
          | panic p1 =>
            rw [ihV _ _ (by rw [hv]; exact Outcome.noConfusion), hv]
          | ret value p1 =>
            rw [ihV _ _ (by rw [hv]; exact Outcome.noConfusion), hv]
            rw [hv] at h
            cases value with
            | none => rfl
            | some v =>
              simp only at h ⊢
              split
              · rfl
              · rename_i hv2
                rw [if_neg hv2] at h
                exact ihD _ _ h
    · unfold readArray at h ⊢
      split
      rename_i token r heq
      rw [heq] at h
      simp only at h
      split
      · rfl
      · rename_i htok
        rw [if_neg htok] at h
        cases hv : readValue rd fuel (p.withReader r) token with
        | outOfFuel =>
          rw [hv] at h
          exact absurd rfl h
        | panic p1 =>
          rw [ihV _ _ (by rw [hv]; exact Outcome.noConfusion), hv]
        | ret value p1 =>
          rw [ihV _ _ (by rw [hv]; exact Outcome.noConfusion), hv]
          rw [hv] at h
          exact ihA _ _ h

/-- A call of `readValue` that returned keeps its result with any larger fuel. -/
theorem readValue_fuel_le {σ : Type} (rd : PDFTokenReader σ) (fuel fuel1 : Nat)
    (hle : fuel ≤ fuel1) (p q : PDFParser σ) (token : Option String) (v : Option Value)
    (h : readValue rd fuel p token = .ret v q) : readValue rd fuel1 p token = .ret v q := by
  induction hle with
  | refl => exact h
  | step _ ih =>
    rw [(readValue_family_fuel_succ rd _).1 p token (by rw [ih]; exact Outcome.noConfusion)]
    exact ih

/-! ### readValue: dictionaries and arrays -/

theorem lookup_filter_ne {α β : Type} [BEq α] [LawfulBEq α] (m : List (α × β)) (k k' : α)
    (hne : (k' == k) = false) :
    (m.filter (fun e => !(e.1 == k))).lookup k' = m.lookup k' := by
  induction m with
  | nil => rfl
  | cons e rest ih =>
    obtain ⟨a, b⟩ := e
    by_cases ha : a == k
    · have hne2 : (k' == a) = false := by
        have hak : a = k := eq_of_beq ha
        rw [hak]
        exact hne
      simp [List.filter_cons, ha, List.lookup_cons, hne2, ih]
    · simp only [List.filter_cons, ha, Bool.not_false, if_true, List.lookup_cons, ih,
        Bool.false_eq_true, not_false_eq_true]

/-- Reading a key of a map after the assignment `m[k] = v`. -/
theorem lookup_mapSet_any {α β : Type} [BEq α] [LawfulBEq α] (m : List (α × β)) (k k' : α)
    (v : β) : (mapSet m k v).lookup k' = if k' == k then some v else m.lookup k' := by
  unfold mapSet
  rw [List.lookup_cons]
  by_cases h : k' == k
  · simp [h]
  · have hf : (k' == k) = false := by simpa using h
    simp [hf, lookup_filter_ne m k k' hf]

theorem lookup_foldl_mapSet (kvs : List (String × Value)) (acc : Dictionary) (k : String)
    (hdistinct : (kvs.map Prod.fst).Nodup) :
    (kvs.foldl (fun a kv => mapSet a kv.1 kv.2) acc).lookup k
      = (kvs.lookup k).or (acc.lookup k) := by
  induction kvs generalizing acc with
  | nil => simp
  | cons kv rest ih =>
    obtain ⟨k0, v0⟩ := kv
    rw [List.map_cons, List.nodup_cons] at hdistinct
    rw [List.foldl_cons, ih _ hdistinct.2, lookup_mapSet_any, List.lookup_cons]
    by_cases hk : k == k0
    · have hkk : k = k0 := eq_of_beq hk
      have hnone : rest.lookup k = none := by
        rw [List.lookup_eq_none_iff]
        intro e he
        rw [bne_iff_ne]
        intro hek
        apply hdistinct.1
        rw [List.mem_map]
        exact ⟨e, he, by rw [← hkk]; exact hek.symm⟩
      simp [hk, hnone]
    · have hf : (k == k0) = false := by simpa using hk
      simp [hf]

theorem isName_ne_close (k : String) (h : isName k = true) : k ≠ ">>" := by
  intro hk
  rw [hk] at h
  exact absurd h (by decide)

/-- The dictionary loop on a run of entries. -/
theorem readDict_entries {σ : Type} (rd : PDFTokenReader σ) (f : Nat)
    (kvs : List (String × Value)) (p q : PDFParser σ) (acc : Dictionary) (F : Nat)
    (hentries : dictEntries rd f p kvs q)
    (hnames : ∀ kv ∈ kvs, isName kv.1 = true)
    (hvalues : ∀ kv ∈ kvs, isToken kv.2 ">>" = false)
    (hfuel : f + kvs.length + 1 ≤ F) :
    readDict rd F p acc
      = .ret (some (.Dictionary (kvs.foldl (fun a kv => mapSet a kv.1 kv.2) acc))) q := by
  induction kvs generalizing p acc F with
  | nil =>
    obtain ⟨r, hr, hq⟩ := hentries
    obtain ⟨F1, rfl⟩ : ∃ F1, F = F1 + 1 := ⟨F - 1, by simp at hfuel; omega⟩
    unfold readDict
    rw [hr, hq]
    simp
  | cons kv rest ih =>
    obtain ⟨r, p1, hr, hv, hrest⟩ := hentries
    obtain ⟨F1, rfl⟩ : ∃ F1, F = F1 + 1 := ⟨F - 1, by simp at hfuel; omega⟩
    have hk : kv.1 ≠ ">>" := isName_ne_close _ (hnames kv (List.mem_cons_self _ _))
    have hval : isToken kv.2 ">>" = false := hvalues kv (List.mem_cons_self _ _)
    have hv1 := readValue_fuel_le rd f F1 (by simp at hfuel; omega) _ _ _ _ hv
    unfold readDict
    rw [hr]
    simp only [hk, if_false, hv1, hval, Bool.false_eq_true, List.foldl_cons]
    exact ih p1 _ F1 hrest (fun kv' h' => hnames kv' (List.mem_cons_of_mem _ h'))
      (fun kv' h' => hvalues kv' (List.mem_cons_of_mem _ h')) (by simp at hfuel; omega)

/-- The dictionary case where decoding works: when the token `<<` (handed in,
or read when `nil` is handed in) is
followed by the entries `k1 v1 ... kn vn` and `>>`, with distinct name keys and
each `vi` the value that the decoder reads behind `ki` (not the bare token
`>>`), `readValue` with enough fuel returns a Dictionary that maps each `ki`,
leading `/` included, to `vi` and has no other key, and leaves the reader
behind `>>`. -/
theorem readValue_dictionary {σ : Type} (rd : PDFTokenReader σ) (f F : Nat)
    (p p1 q : PDFParser σ) (arg : Option String) (kvs : List (String × Value))
    (hfetch : fetchToken rd p arg = (some "<<", p1))
    (hentries : dictEntries rd f p1 kvs q)
    (hnames : ∀ kv ∈ kvs, isName kv.1 = true)
    (hvalues : ∀ kv ∈ kvs, isToken kv.2 ">>" = false)
    (hdistinct : (kvs.map Prod.fst).Nodup)
    (hfuel : f + kvs.length + 2 ≤ F) :
    ∃ d, readValue rd F p arg = .ret (some (.Dictionary d)) q
      ∧ (∀ kv ∈ kvs, d.lookup kv.1 = some kv.2)
      ∧ (∀ k, k ∉ kvs.map Prod.fst → d.lookup k = none) := by
  obtain ⟨F1, rfl⟩ : ∃ F1, F = F1 + 1 := ⟨F - 1, by omega⟩
  refine ⟨kvs.foldl (fun a kv => mapSet a kv.1 kv.2) [], ?_, ?_, ?_⟩
  · unfold readValue
    simp only [hfetch, Option.getD_some]
    rw [if_pos True.intro]
    exact readDict_entries rd f kvs p1 q [] F1 hentries hnames hvalues (by omega)
  · intro kv hkv
    rw [lookup_foldl_mapSet kvs [] kv.1 hdistinct]
    have hsome : kvs.lookup kv.1 = some kv.2 := by
      clear hentries hnames hvalues hfuel
      induction kvs with
      | nil => simp at hkv
      | cons e rest ih =>
        rw [List.map_cons, List.nodup_cons] at hdistinct
        rcases List.mem_cons.mp hkv with h1 | h1
        · rw [h1]
          obtain ⟨a, b⟩ := e
          simp [List.lookup_cons]
        · obtain ⟨a, b⟩ := e
          have hne : (kv.1 == a) = false := by
            have hmem : kv.1 ∈ rest.map Prod.fst := List.mem_map.mpr ⟨kv, h1, rfl⟩
            have : kv.1 ≠ a := fun h => hdistinct.1 (h ▸ hmem)
            simpa using this
          rw [List.lookup_cons, hne]
          exact ih hdistinct.2 h1
    simp [hsome]
  · intro k hk
    rw [lookup_foldl_mapSet kvs [] k hdistinct]
    have hnone : kvs.lookup k = none := by
      rw [List.lookup_eq_none_iff]
      intro e he
      rw [bne_iff_ne]
      intro hek
      exact hk (List.mem_map.mpr ⟨e, he, hek.symm⟩)
    simp [hnone]

/-- An instance of `readValue_dictionary`: `<< /Type /Page /Parent 3 0 R >>`
decodes to a Dictionary with `/Type` -> Token `/Page` and `/Parent` ->
ObjectRef{3, 0} and no other key. -/
theorem readValue_dictionary_witness :
    ∃ d, readValue byteReader 5 (freshParser "<< /Type /Page /Parent 3 0 R >>" 0) none
        = .ret (some (.Dictionary d)) (freshParser "<< /Type /Page /Parent 3 0 R >>" 31)
      ∧ (∀ kv ∈ pageEntries, d.lookup kv.1 = some kv.2)
      ∧ (∀ k, k ∉ pageEntries.map Prod.fst → d.lookup k = none) :=
  readValue_dictionary byteReader 1 5 (freshParser "<< /Type /Page /Parent 3 0 R >>" 0)
    (freshParser "<< /Type /Page /Parent 3 0 R >>" 2)
    (freshParser "<< /Type /Page /Parent 3 0 R >>" 31) none pageEntries rfl
    ⟨⟨_, 8⟩, freshParser "<< /Type /Page /Parent 3 0 R >>" 14, rfl, rfl,
      ⟨_, 22⟩, freshParser "<< /Type /Page /Parent 3 0 R >>" 28, rfl, rfl, ⟨_, 31⟩, rfl, rfl⟩
    (by decide) (by decide) (by decide) (by decide)

/-- The array loop on a run of elements. -/
theorem readArray_items {σ : Type} (rd : PDFTokenReader σ) (f : Nat) (vs : List Value)
    (p q : PDFParser σ) (acc : List (Option Value)) (F : Nat)
    (hitems : arrayItems rd f p vs q) (hfuel : f + vs.length + 1 ≤ F) :
    readArray rd F p acc = .ret (some (.Array (acc ++ vs.map some))) q := by
  induction vs generalizing p acc F with
  | nil =>
    obtain ⟨r, hr, hq⟩ := hitems
    obtain ⟨F1, rfl⟩ : ∃ F1, F = F1 + 1 := ⟨F - 1, by simp at hfuel; omega⟩
    unfold readArray
    rw [hr, hq]
    simp
  | cons v rest ih =>
    obtain ⟨t, r, p1, hr, ht, hv, hrest⟩ := hitems
    obtain ⟨F1, rfl⟩ : ∃ F1, F = F1 + 1 := ⟨F - 1, by simp at hfuel; omega⟩
    have hv1 := readValue_fuel_le rd f F1 (by simp at hfuel; omega) _ _ _ _ hv
    have htok : ¬ (some t = some "]") := fun h => ht (Option.some.inj h)
    unfold readArray
    rw [hr]
    simp only [htok, if_false, hv1]
    rw [ih p1 _ F1 hrest (by simp at hfuel; omega)]
    simp

/-- The array case where decoding works: when the token `[` (handed in, or
read when `nil` is handed in) is
followed by the values `v1 ... vn`, each the value that the decoder reads from
its first token on, and then by a bare `]`, `readValue` with enough fuel
returns the Array of exactly `v1 ... vn` in input order and leaves the reader
behind the closing `]`. -/
theorem readValue_array {σ : Type} (rd : PDFTokenReader σ) (f F : Nat)
    (p p1 q : PDFParser σ) (arg : Option String) (vs : List Value)
    (hfetch : fetchToken rd p arg = (some "[", p1))
    (hitems : arrayItems rd f p1 vs q)
    (hfuel : f + vs.length + 2 ≤ F) :
    readValue rd F p arg = .ret (some (.Array (vs.map some))) q := by
  obtain ⟨F1, rfl⟩ : ∃ F1, F = F1 + 1 := ⟨F - 1, by omega⟩
  unfold readValue
  simp only [hfetch, Option.getD_some]
  rw [if_neg (by decide), if_neg (by decide), if_pos True.intro,
    readArray_items rd f vs p1 q [] F1 hitems (by omega)]
  rfl

/-- An instance of `readValue_array`: `[1 2 3]` decodes to the Array of
Numeric 1, Numeric 2, Numeric 3, with the reader behind `]`. -/
theorem readValue_array_witness :
    readValue byteReader 6 (freshParser "[1 2 3]" 0) none
      = .ret (some (.Array [some (.Numeric 1), some (.Numeric 2), some (.Numeric 3)]))
          (freshParser "[1 2 3]" 7) :=
  readValue_array byteReader 1 6 (freshParser "[1 2 3]" 0) (freshParser "[1 2 3]" 1)
    (freshParser "[1 2 3]" 7) none [.Numeric 1, .Numeric 2, .Numeric 3] rfl
    ⟨"1", ⟨_, 2⟩, freshParser "[1 2 3]" 2, rfl, by decide, rfl,
      "2", ⟨_, 4⟩, freshParser "[1 2 3]" 4, rfl, by decide, rfl,
      "3", ⟨_, 6⟩, freshParser "[1 2 3]" 6, rfl, by decide, rfl, ⟨_, 7⟩, rfl, rfl⟩
    (by decide)

/-! ### getPageBox: size and corners -/

/-- C14: for a box entry that is an array of four numbers `[x0 y0 x1 y1]` and
a non-zero scale `k`, `getPageBox` returns the box with size
`(|x0-x1|/k, |y0-y1|/k)`, lower-left corner `(min x0 x1 / k, min y0 y1 / k)`
and upper-right corner `(max x0 x1 / k, max y0 y1 / k)`. -/
theorem getPageBox_array_corners {σ : Type} (rd : PDFTokenReader σ) (fuel : Nat)
    (p : PDFParser σ) (page : Dictionary) (boxIndex : String) (k x0 y0 x1 y1 : ℚ)
    (v0 v1 v2 v3 : Option Value) (_hk : k ≠ 0)
    (hbox : page.lookup ("/" ++ boxIndex) = some (.Array [v0, v1, v2, v3]))
    (h0 : numOf v0 = some x0) (h1 : numOf v1 = some y0)
    (h2 : numOf v2 = some x1) (h3 : numOf v3 = some y1) :
    ∃ box, getPageBox rd (fuel + 1) p page boxIndex k = .ret (some box) p
      ∧ box.size = ⟨|x0 - x1| / k, |y0 - y1| / k⟩
      ∧ box.lowerLeft = ⟨min x0 x1 / k, min y0 y1 / k⟩
      ∧ box.upperRight = ⟨max x0 x1 / k, max y0 y1 / k⟩ := by
  refine ⟨boxOf x0 y0 x1 y1 k, ?_, rfl, rfl, rfl⟩
  simp [getPageBox, hbox, valueType, boxOfArray, h0, h1, h2, h3]

/-- Witness of `getPageBox_array_corners`: the media box `[200 0 0 300]` at
scale 2. -/
theorem getPageBox_array_corners_witness :
    ∃ box, getPageBox byteReader 1 (freshParser "" 0) unsortedPage MediaBox 2
        = .ret (some box) (freshParser "" 0)
      ∧ box.size = ⟨|200 - 0| / 2, |0 - 300| / 2⟩
      ∧ box.lowerLeft = ⟨min 200 0 / 2, min 0 300 / 2⟩
      ∧ box.upperRight = ⟨max 200 0 / 2, max 0 300 / 2⟩ :=
  getPageBox_array_corners byteReader 0 (freshParser "" 0) unsortedPage MediaBox 2 200 0 0 300
    (some (.Numeric 200)) (some (.Numeric 0)) (some (.Numeric 0)) (some (.Numeric 300))
    two_ne_zero rfl (by simp [numOf]) (by simp [numOf]) (by simp [numOf]) (by simp [numOf])

/-! ### resolveObject: fuel and frame -/

theorem readObjectValues_fuel_succ {σ : Type} (rd : PDFTokenReader σ) (fuel : Nat)
    (p : PDFParser σ) (values : List Value)
    (h : readObjectValues rd fuel p values ≠ .outOfFuel) :
    readObjectValues rd (fuel + 1) p values = readObjectValues rd fuel p values := by
  induction fuel generalizing p values with
  | zero => exact absurd rfl h
  | succ fuel ih =>
    unfold readObjectValues at h ⊢
    cases hv : readValue rd fuel p none with
    | outOfFuel =>
      rw [hv] at h
      exact absurd rfl h
    | panic p1 =>
      rw [(readValue_family_fuel_succ rd fuel).1 _ _ (by rw [hv]; exact Outcome.noConfusion), hv]
    | ret value p1 =>
      rw [(readValue_family_fuel_succ rd fuel).1 _ _ (by rw [hv]; exact Outcome.noConfusion), hv]
      rw [hv] at h
      cases value with
      | none => rfl
      | some v =>
        simp only at h ⊢
        split
        · rfl
        · rename_i hlen
          rw [if_neg hlen] at h
          split
          · rfl
          · rename_i hend
            rw [if_neg hend] at h
            exact ih _ _ h

theorem resolveBody_fuel_succ {σ : Type} (rd : PDFTokenReader σ) (fuel : Nat)
    (p : PDFParser σ) (header : Option Value) (originalOffset : Int)
    (h : resolveBody rd fuel p header originalOffset ≠ .outOfFuel) :
    resolveBody rd (fuel + 1) p header originalOffset
      = resolveBody rd fuel p header originalOffset := by
  unfold resolveBody at h ⊢
  split
  · rename_i hd
    simp only at h
    cases hv : readObjectValues rd fuel { p with currentObject := ⟨hd.Obj, hd.Gen, []⟩ } [] with
    | outOfFuel =>
      rw [hv] at h
      exact absurd rfl h
    | panic p1 =>
      rw [readObjectValues_fuel_succ rd fuel _ _ (by rw [hv]; exact Outcome.noConfusion), hv]
    | ret values p1 =>
      rw [readObjectValues_fuel_succ rd fuel _ _ (by rw [hv]; exact Outcome.noConfusion), hv]
  · rfl

theorem resolveObject_fuel_succ {σ : Type} (rd : PDFTokenReader σ) (fuel : Nat)
    (p : PDFParser σ) (spec : Option Value)
    (h : resolveObject rd fuel p spec ≠ .outOfFuel) :
    resolveObject rd (fuel + 1) p spec = resolveObject rd fuel p spec := by
  unfold resolveObject at h ⊢
  split
  · rfl
  · rename_i objRef
    simp only at h ⊢
    split
    · rename_i offset hlook
      rw [hlook] at h
      simp only at h
      cases hv : readValue rd fuel
          (p.withReader (rd.Seek (rd.Seek p.reader 0 1).2 offset 0).2) none with
      | outOfFuel =>
        rw [hv] at h
        exact absurd rfl h
      | panic p1 =>
        rw [(readValue_family_fuel_succ rd fuel).1 _ _ (by rw [hv]; exact Outcome.noConfusion),
          hv]
      | ret header p3 =>
        rw [(readValue_family_fuel_succ rd fuel).1 _ _ (by rw [hv]; exact Outcome.noConfusion),
          hv]
        rw [hv] at h
        simp only at h ⊢
        split
        · rename_i href
          rw [if_pos href] at h
          exact resolveBody_fuel_succ rd _ _ _ _ h
        · rename_i href
          rw [if_neg href] at h
          split
          · rename_i r5 hskip
            rw [hskip] at h
            exact resolveBody_fuel_succ rd _ _ _ _ h
          · rfl
    · rfl
  · rfl
  · rfl

/-- A call of `resolveObject` that returned keeps its result with any larger
fuel. -/
theorem resolveObject_fuel_le {σ : Type} (rd : PDFTokenReader σ) (fuel fuel1 : Nat)
    (hle : fuel ≤ fuel1) (p q : PDFParser σ) (spec : Option Value)
    (v : Option ObjectDeclaration) (h : resolveObject rd fuel p spec = .ret v q) :
    resolveObject rd fuel1 p spec = .ret v q := by
  induction hle with
  | refl => exact h
  | step _ ih =>
    rw [resolveObject_fuel_succ rd _ p spec (by rw [ih]; exact Outcome.noConfusion)]
    exact ih

theorem Kept.same {σ : Type} (p : PDFParser σ) : Kept p p := ⟨rfl, rfl, rfl⟩

theorem Kept.chain {σ : Type} (p p1 q : PDFParser σ) (h1 : Kept p p1) (h2 : Kept p1 q) :
    Kept p q :=
  ⟨h2.1.trans h1.1, h2.2.1.trans h1.2.1, h2.2.2.trans h1.2.2⟩

theorem Kept.of_withReader {σ : Type} (p q : PDFParser σ) (h : ∃ r, q = p.withReader r) :
    Kept p q := by
  obtain ⟨r, rfl⟩ := h
  exact ⟨rfl, rfl, rfl⟩

theorem readValue_kept {σ : Type} (rd : PDFTokenReader σ) (fuel : Nat) (p q : PDFParser σ)
    (token : Option String) (hq : (readValue rd fuel p token).parser = some q) : Kept p q :=
  Kept.of_withReader p q (readValue_onlyReader rd fuel p token q hq)

theorem readObjectValues_kept {σ : Type} (rd : PDFTokenReader σ) (fuel : Nat)
    (p q : PDFParser σ) (values : List Value)
    (hq : (readObjectValues rd fuel p values).parser = some q) : Kept p q := by
  induction fuel generalizing p values with
  | zero => simp [readObjectValues, Outcome.parser] at hq
  | succ fuel ih =>
    unfold readObjectValues at hq
    cases hv : readValue rd fuel p none with
    | outOfFuel =>
      rw [hv] at hq
      simp [Outcome.parser] at hq
    | panic p1 =>
      rw [hv] at hq
      have h1 : p1 = q := by simpa [Outcome.parser] using hq
      rw [← h1]
      exact readValue_kept rd fuel p p1 none (by rw [hv]; rfl)
    | ret value p1 =>
      have hk : Kept p p1 := readValue_kept rd fuel p p1 none (by rw [hv]; rfl)
      rw [hv] at hq
      cases value with
      | none =>
        have h1 : p1 = q := by simpa [Outcome.parser] using hq
        rw [← h1]
        exact hk
      | some v =>
        simp only at hq
        split at hq
        · have h1 : p1 = q := by simpa [Outcome.parser] using hq
          rw [← h1]
          exact hk
        · split at hq
          · have h1 : p1 = q := by simpa [Outcome.parser] using hq
            rw [← h1]
            exact hk
          · exact Kept.chain p p1 q hk (ih p1 _ hq)

theorem resolveBody_kept {σ : Type} (rd : PDFTokenReader σ) (fuel : Nat) (p q : PDFParser σ)
    (header : Option Value) (originalOffset : Int)
    (hq : (resolveBody rd fuel p header originalOffset).parser = some q) : Kept p q := by
  unfold resolveBody at hq
  split at hq
  · rename_i hd
    cases hv : readObjectValues rd fuel { p with currentObject := ⟨hd.Obj, hd.Gen, []⟩ } [] with
    | outOfFuel =>
      rw [hv] at hq
      simp [Outcome.parser] at hq
    | panic p1 =>
      rw [hv] at hq
      have h1 : p1 = q := by simpa [Outcome.parser] using hq
      rw [← h1]
      have hmid : Kept ({ p with currentObject := ⟨hd.Obj, hd.Gen, []⟩ } : PDFParser σ) p1 :=
        readObjectValues_kept rd fuel _ p1 [] (by rw [hv]; rfl)
      exact hmid
    | ret values p1 =>
      rw [hv] at hq
      have hmid : Kept ({ p with currentObject := ⟨hd.Obj, hd.Gen, []⟩ } : PDFParser σ) p1 :=
        readObjectValues_kept rd fuel _ p1 [] (by rw [hv]; rfl)
      have hk : Kept p p1 := hmid
      have h1 : p1.withReader (rd.Seek p1.reader originalOffset 0).2 = q := by
        simpa [Outcome.parser] using hq
      rw [← h1]
      exact Kept.chain p p1 _ hk ⟨rfl, rfl, rfl⟩
  · have h1 : p = q := by simpa [Outcome.parser] using hq
    rw [← h1]
    exact Kept.same p

/-- The method `resolveObject` leaves the page list, the xref state and the
root as they are. -/
theorem resolveObject_kept {σ : Type} (rd : PDFTokenReader σ) (fuel : Nat) (p q : PDFParser σ)
    (spec : Option Value) (hq : (resolveObject rd fuel p spec).parser = some q) : Kept p q := by
  unfold resolveObject at hq
  split at hq
  · have h1 : p = q := by simpa [Outcome.parser] using hq
    rw [← h1]
    exact Kept.same p
  · rename_i objRef
    simp only at hq
    split at hq
    · rename_i offset hlook
      cases hv : readValue rd fuel
          (p.withReader (rd.Seek (rd.Seek p.reader 0 1).2 offset 0).2) none with
      | outOfFuel =>
        rw [hv] at hq
        simp [Outcome.parser] at hq
      | panic p3 =>
        rw [hv] at hq
        have h1 : p3 = q := by simpa [Outcome.parser] using hq
        rw [← h1]
        have hmid : Kept (p.withReader (rd.Seek (rd.Seek p.reader 0 1).2 offset 0).2) p3 :=
          readValue_kept rd fuel _ p3 none (by rw [hv]; rfl)
        exact hmid
      | ret header p3 =>
        have hmid : Kept (p.withReader (rd.Seek (rd.Seek p.reader 0 1).2 offset 0).2) p3 :=
          readValue_kept rd fuel _ p3 none (by rw [hv]; rfl)
        have hk : Kept p p3 := hmid
        rw [hv] at hq
        simp only at hq
        split at hq
        · exact Kept.chain p p3 q hk (resolveBody_kept rd fuel p3 q _ _ hq)
        · split at hq
          · rename_i r5 _
            have hmid : Kept (p3.withReader (rd.SkipBytes r5
                (fmtInt objRef.Obj ++ " " ++ fmtInt objRef.Gen ++ " obj").length)) q :=
              resolveBody_kept rd fuel _ q _ _ hq
            have hb : Kept p3 q := hmid
            exact Kept.chain p p3 q hk hb
          · rename_i r5 _
            have h1 : p3.withReader (rd.Seek r5 (rd.Seek p.reader 0 1).1.1 0).2 = q := by
              simpa [Outcome.parser] using hq
            rw [← h1]
            exact Kept.chain p p3 _ hk ⟨rfl, rfl, rfl⟩
    · have h1 : p = q := by simpa [Outcome.parser] using hq
      rw [← h1]
      exact Kept.same p
  · have h1 : p = q := by simpa [Outcome.parser] using hq
    rw [← h1]
    exact Kept.same p
  · have h1 : p = q := by simpa [Outcome.parser] using hq
    rw [← h1]
    exact Kept.same p

/-! ### getPageBox: inheritance -/

/-- Walking up a chain of parents, `getPageBox` on the page is `getPageBox` on
the node the chain ends in. -/
theorem getPageBox_chain {σ : Type} (rd : PDFTokenReader σ) (f G : Nat) (boxIndex : String)
    (k : ℚ) (n : Nat) (p q : PDFParser σ) (d a : Dictionary)
    (hchain : parentChain rd f ("/" ++ boxIndex) n p d q a) (hG : f ≤ G) :
    getPageBox rd (G + n) p d boxIndex k = getPageBox rd G q a boxIndex k := by
  induction n generalizing p d with
  | zero =>
    obtain ⟨hq, ha⟩ := hchain
    rw [hq, ha]
    rfl
  | succ n ih =>
    obtain ⟨hkey, ref, decl, p1, parent, rest, hparent, hres, hvals, hrest⟩ := hchain
    have hres1 := resolveObject_fuel_le rd f (G + n) (by omega) _ _ _ _ hres
    have hstep : G + (n + 1) = (G + n) + 1 := by omega
    rw [hstep]
    conv_lhs => unfold getPageBox
    simp only [hkey, hparent, hres1, hvals]
    exact ih p1 parent hrest

/-- The method `getPageBox` on a node that holds the box as an array of four
numbers. -/
theorem getPageBox_array {σ : Type} (rd : PDFTokenReader σ) (fuel : Nat) (p : PDFParser σ)
    (page : Dictionary) (boxIndex : String) (k x0 y0 x1 y1 : ℚ) (v0 v1 v2 v3 : Option Value)
    (hbox : page.lookup ("/" ++ boxIndex) = some (.Array [v0, v1, v2, v3]))
    (h0 : numOf v0 = some x0) (h1 : numOf v1 = some y0)
    (h2 : numOf v2 = some x1) (h3 : numOf v3 = some y1) :
    getPageBox rd (fuel + 1) p page boxIndex k = .ret (some (boxOf x0 y0 x1 y1 k)) p := by
  simp [getPageBox, hbox, valueType, boxOfArray, h0, h1, h2, h3]

/-- C13: for a page from which `n` resolvable `/Parent` links lead to an
ancestor, every node before the ancestor lacking the box key: when the
ancestor holds the box as an array of four numbers, `getPageBox` on the page
(with enough fuel) returns the same box, at the same scale, as `getPageBox`
on the ancestor; when the ancestor has neither the key nor a `/Parent`,
`getPageBox` on the page returns no box. -/
theorem getPageBox_inherits {σ : Type} (rd : PDFTokenReader σ) (f F : Nat) (boxIndex : String)
    (k : ℚ) (n : Nat) (p q : PDFParser σ) (page ancestor : Dictionary)
    (hchain : parentChain rd f ("/" ++ boxIndex) n p page q ancestor)
    (hfuel : f + n + 1 ≤ F) :
    (∀ x0 y0 x1 y1 v0 v1 v2 v3,
        ancestor.lookup ("/" ++ boxIndex) = some (.Array [v0, v1, v2, v3]) →
        numOf v0 = some x0 → numOf v1 = some y0 → numOf v2 = some x1 → numOf v3 = some y1 →
        getPageBox rd F p page boxIndex k = .ret (some (boxOf x0 y0 x1 y1 k)) q
          ∧ ∀ p1, getPageBox rd F p1 ancestor boxIndex k = .ret (some (boxOf x0 y0 x1 y1 k)) p1)
    ∧ (ancestor.lookup ("/" ++ boxIndex) = none → ancestor.lookup "/Parent" = none →
        getPageBox rd F p page boxIndex k = .ret none q) := by
  obtain ⟨G, rfl⟩ : ∃ G, F = (G + 1) + n := ⟨F - n - 1, by omega⟩
  have hG : f ≤ G + 1 := by omega
  rw [getPageBox_chain rd f (G + 1) boxIndex k n p q page ancestor hchain hG]
  constructor
  · intro x0 y0 x1 y1 v0 v1 v2 v3 hbox h0 h1 h2 h3
    refine ⟨getPageBox_array rd G q ancestor boxIndex k x0 y0 x1 y1 v0 v1 v2 v3 hbox h0 h1 h2 h3,
      fun p1 => ?_⟩
    have hF : G + 1 + n = (G + n) + 1 := by omega
    rw [hF]
    exact getPageBox_array rd (G + n) p1 ancestor boxIndex k x0 y0 x1 y1 v0 v1 v2 v3 hbox
      h0 h1 h2 h3
  · intro hkey hparent
    unfold getPageBox
    simp only [hkey, hparent]

/-- Witness of `getPageBox_inherits`: the page `childPage` has no boxes and its
parent, object 2, holds the media box `[200 0 0 300]` and no trim box; at
scale 2 the page inherits the media box and has no trim box. -/
theorem getPageBox_inherits_witness :
    (getPageBox byteReader 14 parentParser childPage MediaBox 2
        = .ret (some (boxOf 200 0 0 300 2)) parentParserAfter
      ∧ ∀ p1 : PDFParser ByteReader, getPageBox byteReader 14 p1 unsortedPage MediaBox 2
        = .ret (some (boxOf 200 0 0 300 2)) p1)
    ∧ getPageBox byteReader 14 parentParser childPage TrimBox 2 = .ret none parentParserAfter :=
  ⟨(getPageBox_inherits byteReader 12 14 MediaBox 2 1 parentParser parentParserAfter childPage
      unsortedPage
      ⟨rfl, .ObjectRef ⟨2, 0⟩, ⟨2, 0, [.Dictionary unsortedPage]⟩, parentParserAfter,
        unsortedPage, [], rfl, rfl, rfl, rfl, rfl⟩ (by decide)).1 200 0 0 300
      (some (.Numeric 200)) (some (.Numeric 0)) (some (.Numeric 0)) (some (.Numeric 300))
      rfl (by simp [numOf]) (by simp [numOf]) (by simp [numOf]) (by simp [numOf]),
    (getPageBox_inherits byteReader 12 14 TrimBox 2 1 parentParser parentParserAfter childPage
      unsortedPage
      ⟨rfl, .ObjectRef ⟨2, 0⟩, ⟨2, 0, [.Dictionary unsortedPage]⟩, parentParserAfter,
        unsortedPage, [], rfl, rfl, rfl, rfl, rfl⟩ (by decide)).2 rfl rfl⟩

/-! ### getPageBox: a box given as a reference -/

/-- A box entry that is a reference never gives a box: whatever the reference
resolves to, `getPageBox` returns `nil` when it returns. -/
theorem getPageBox_reference_none {σ : Type} (rd : PDFTokenReader σ) (fuel : Nat)
    (p q : PDFParser σ) (page : Dictionary) (boxIndex : String) (k : ℚ) (ref : ObjectRef)
    (v : Option PageBox) (hbox : page.lookup ("/" ++ boxIndex) = some (.ObjectRef ref))
    (h : getPageBox rd fuel p page boxIndex k = .ret v q) : v = none := by
  cases fuel with
  | zero => exact Outcome.noConfusion (by unfold getPageBox at h; exact h)
  | succ fuel =>
    unfold getPageBox at h
    simp only [hbox, valueType, if_true] at h
    split at h
    · simp only [reduceCtorEq, if_false] at h
      injection h with h1 _
      exact h1.symm
    · injection h with h1 _
      exact h1.symm
    · exact Outcome.noConfusion h
    · exact Outcome.noConfusion h

/-- C18: with the media box of the page given as `5 0 R` and object 5 the
array `[200 0 0 300]`, `resolveObject` finds the array, but `getPageBox`
returns no box; with the same array stored inline it returns the box. -/
theorem getPageBox_reference_differs :
    (resolveObject byteReader 13 boxParser (some (.ObjectRef ⟨5, 0⟩))).value
        = some (some ⟨5, 0, [.Array [some (.Numeric 200), some (.Numeric 0), some (.Numeric 0),
            some (.Numeric 300)]]⟩)
      ∧ (getPageBox byteReader 14 boxParser boxRefPage MediaBox 1).value = some none
      ∧ (getPageBox byteReader 14 boxParser unsortedPage MediaBox 1).value
        = some (some (boxOf 200 0 0 300 1)) :=
  ⟨rfl, rfl, rfl⟩

/-! ### readRoot -/

/-- The three error returns of `readRoot`: `/Root` absent, `/Root` not a
reference, reference not resolved. -/
theorem readRoot_errors {σ : Type} (rd : PDFTokenReader σ) (fuel : Nat) (p : PDFParser σ) :
    (p.xref.trailer.lookup "/Root" = none →
        readRoot rd fuel p = .ret (some "Could not find root in trailer") p)
    ∧ (∀ v, p.xref.trailer.lookup "/Root" = some v → valueType v ≠ .typeObjRef →
        readRoot rd fuel p
          = .ret (some "Wrong Type of Root-Element! Must be an indirect reference") p)
    ∧ (∀ v p1, p.xref.trailer.lookup "/Root" = some v → valueType v = .typeObjRef →
        resolveObject rd fuel p (some v) = .ret none p1 →
        readRoot rd fuel p = .ret (some "Could not find reference to root") p1) := by
  refine ⟨fun h => ?_, fun v h hv => ?_, fun v p1 h hv hres => ?_⟩
  · unfold readRoot
    rw [h]
  · unfold readRoot
    rw [h]
    simp only [ne_eq, hv, not_false_eq_true, if_true]
  · unfold readRoot
    rw [h]
    simp only [ne_eq, hv, not_true_eq_false, if_false, hres]

/-- C17: `readRoot` panics, instead of returning an error, when the object that
`/Root` refers to has a first value that is not a dictionary
(`1 0 obj 7 endobj`) and when it has no value at all (`1 0 obj endobj`); on
`1 0 obj << /Pages 2 0 R >> endobj` it stores the dictionary and returns no
error. -/
theorem readRoot_panics_without_dictionary :
    (readRoot byteReader 10 (rootParser "1 0 obj 7 endobj")).panicked = true
      ∧ (readRoot byteReader 10 (rootParser "1 0 obj endobj")).panicked = true
      ∧ (readRoot byteReader 10 (rootParser "1 0 obj << /Pages 2 0 R >> endobj")).value
          = some none
      ∧ (readRoot byteReader 10 (rootParser "1 0 obj << /Pages 2 0 R >> endobj")).parser.map
          (fun q => q.root.lookup "/Pages") = some (some (.ObjectRef ⟨2, 0⟩)) :=
  ⟨rfl, rfl, rfl, rfl⟩

/-! ### readPages -/

theorem kidsResolve_length {σ : Type} (rd : PDFTokenReader σ) (fuel : Nat)
    (kids : List (Option Value)) (dicts : List Dictionary) (p q : PDFParser σ) (k : Nat)
    (h : kidsResolve rd fuel p k kids dicts q) : dicts.length = kids.length := by
  induction kids generalizing p k dicts with
  | nil =>
    cases dicts with
    | nil => rfl
    | cons d ds => exact absurd h (by simp [kidsResolve])
  | cons kid rest ih =>
    cases dicts with
    | nil => exact absurd h (by simp [kidsResolve])
    | cons d ds =>
      obtain ⟨decl, p1, vs, _, _, hrest⟩ := h
      simp [ih ds _ _ hrest]

/-- The page list after a run of kids that resolve. -/
theorem kidsResolve_pages {σ : Type} (rd : PDFTokenReader σ) (fuel : Nat)
    (kids : List (Option Value)) (dicts : List Dictionary) (p q : PDFParser σ) (k : Nat)
    (h : kidsResolve rd fuel p k kids dicts q) : q.pages = p.pages ++ numberPages k dicts := by
  induction kids generalizing p k dicts with
  | nil =>
    cases dicts with
    | nil =>
      have hq : q = p := h
      simp [hq, numberPages]
    | cons d ds => exact absurd h (by simp [kidsResolve])
  | cons kid rest ih =>
    cases dicts with
    | nil => exact absurd h (by simp [kidsResolve])
    | cons d ds =>
      obtain ⟨decl, p1, vs, hres, _, hrest⟩ := h
      have hk : Kept p p1 := resolveObject_kept rd fuel p p1 kid (by rw [hres]; rfl)
      rw [ih ds _ _ hrest]
      simp [numberPages, hk.1]

/-- The loop of `readPages` over a run of kids that resolve. -/
theorem readKids_resolve {σ : Type} (rd : PDFTokenReader σ) (fuel : Nat)
    (kids : List (Option Value)) (dicts : List Dictionary) (p q : PDFParser σ) (k : Nat)
    (more : List (Option Value)) (h : kidsResolve rd fuel p k kids dicts q) :
    readKids rd fuel p k (kids ++ more) = readKids rd fuel q (k + kids.length) more := by
  induction kids generalizing p k dicts with
  | nil =>
    cases dicts with
    | nil =>
      have hq : q = p := h
      simp [hq]
    | cons d ds => exact absurd h (by simp [kidsResolve])
  | cons kid rest ih =>
    cases dicts with
    | nil => exact absurd h (by simp [kidsResolve])
    | cons d ds =>
      obtain ⟨decl, p1, vs, hres, hvals, hrest⟩ := h
      rw [List.cons_append]
      conv_lhs => unfold readKids
      simp only [hres, hvals]
      rw [ih ds _ _ hrest]
      simp only [List.length_cons]
      congr 1
      omega

theorem numberPages_get (ds : List Dictionary) (k i : Nat) (d : Dictionary)
    (h : ds.get? i = some d) : (numberPages k ds).get? i = some ⟨d, ((k + i : Nat) : Int) + 1⟩ := by
  induction ds generalizing k i with
  | nil => simp at h
  | cons d0 rest ih =>
    cases i with
    | zero =>
      simp only [List.get?_cons_zero, Option.some.injEq] at h
      simp [numberPages, h]
    | succ i =>
      simp only [List.get?_cons_succ] at h
      simp only [numberPages, List.get?_cons_succ]
      rw [ih (k + 1) i h]
      have : k + 1 + i = k + (i + 1) := by omega
      rw [this]

theorem numberPages_length (ds : List Dictionary) (k : Nat) :
    (numberPages k ds).length = ds.length := by
  induction ds generalizing k with
  | nil => rfl
  | cons d rest ih => simp [numberPages, ih]

/-- The returns of `readPages`, for a Pages dictionary and a parser: (1) when
`/Kids` is an array
whose entries all resolve, each when its turn comes, to an object with a
Dictionary as first value, and the page list is empty, `readPages` returns no
error and leaves as many pages as kids, the page at index `i` (0-based) being
the first value of kid `i` with Number `i + 1`; (2) it returns an error when
`/Kids` is absent, (3) when `/Kids` is not an array, and (4) when a kid does not
resolve, the kids before it being resolved as in (1). -/
theorem readPages_kids {σ : Type} (rd : PDFTokenReader σ) (fuel : Nat) (p : PDFParser σ)
    (pages : Dictionary) :
    (∀ kids dicts q, pages.lookup "/Kids" = some (.Array kids) → p.pages = [] →
        kidsResolve rd fuel p 0 kids dicts q →
        readPages rd fuel p pages = .ret none q
          ∧ q.pages.length = kids.length
          ∧ ∀ i d, dicts.get? i = some d → q.pages.get? i = some ⟨d, (i : Int) + 1⟩)
    ∧ (pages.lookup "/Kids" = none →
        readPages rd fuel p pages = .ret (some "Cannot find /Kids in current /Page-Dictionary") p)
    ∧ (∀ v, pages.lookup "/Kids" = some v → valueType v ≠ .typeArray →
        readPages rd fuel p pages = .ret (some "Wrong Type of Kids-Element! Must be an array") p)
    ∧ (∀ before dicts p1 kid after p2,
        pages.lookup "/Kids" = some (.Array (before ++ kid :: after)) →
        kidsResolve rd fuel p 0 before dicts p1 →
        resolveObject rd fuel p1 kid = .ret none p2 →
        readPages rd fuel p pages
          = .ret (some ("Could not find reference to page %!i(int=" ++ fmtInt before.length ++ ")"))
              p2) := by
  refine ⟨?_, ?_, ?_, ?_⟩
  · intro kids dicts q hkids hempty hres
    have hpages := kidsResolve_pages rd fuel kids dicts p q 0 hres
    rw [hempty, List.nil_append] at hpages
    refine ⟨?_, ?_, ?_⟩
    · unfold readPages
      simp only [hkids, valueType, ne_eq, not_true_eq_false, if_false]
      have h := readKids_resolve rd fuel kids dicts p q 0 [] hres
      rw [List.append_nil] at h
      rw [h]
      rfl
    · rw [hpages, numberPages_length, kidsResolve_length rd fuel kids dicts p q 0 hres]
    · intro i d hd
      rw [hpages, numberPages_get dicts 0 i d hd]
      simp
  · intro h
    unfold readPages
    rw [h]
  · intro v h hv
    unfold readPages
    rw [h]
    simp only [ne_eq, hv, not_false_eq_true, if_true]
  · intro before dicts p1 kid after p2 hkids hres hkid
    unfold readPages
    simp only [hkids, valueType, ne_eq, not_true_eq_false, if_false]
    rw [readKids_resolve rd fuel before dicts p p1 0 (kid :: after) hres]
    unfold readKids
    simp only [hkid, Nat.zero_add]

/-- An instance of `readPages_kids`: with kids `3 0 R` and `4 0 R` `readPages`
leaves the pages 1 and 2 with the dictionaries of objects 3 and 4; with the
second kid `9 0 R`, which is not in the xref map, it returns the error. -/
theorem readPages_kids_witness :
    (readPages byteReader 10 kidsParser twoKids = .ret none kidsParserAfter
      ∧ kidsParserAfter.pages.length = 2
      ∧ ∀ i d, [[("/A", Value.Numeric 1)], [("/B", Value.Numeric 2)]].get? i = some d →
          kidsParserAfter.pages.get? i = some ⟨d, (i : Int) + 1⟩)
    ∧ readPages byteReader 10 kidsParser lostKid
        = .ret (some "Could not find reference to page %!i(int=1)")
            { kidsParser with
              currentObject := ⟨3, 0, []⟩, pages := [⟨[("/A", .Numeric 1)], 1⟩] } :=
  ⟨(readPages_kids byteReader 10 kidsParser twoKids).1
      [some (.ObjectRef ⟨3, 0⟩), some (.ObjectRef ⟨4, 0⟩)]
      [[("/A", .Numeric 1)], [("/B", .Numeric 2)]] kidsParserAfter rfl rfl
      ⟨⟨3, 0, [.Dictionary [("/A", .Numeric 1)]]⟩,
        { kidsParser with currentObject := ⟨3, 0, []⟩ }, [], rfl, rfl,
        ⟨4, 0, [.Dictionary [("/B", .Numeric 2)]]⟩,
        { kidsParser with
          currentObject := ⟨4, 0, []⟩, pages := [⟨[("/A", .Numeric 1)], 1⟩] }, [], rfl, rfl,
        rfl⟩,
    (readPages_kids byteReader 10 kidsParser lostKid).2.2.2
      [some (.ObjectRef ⟨3, 0⟩)] [[("/A", .Numeric 1)]]
      { kidsParser with currentObject := ⟨3, 0, []⟩, pages := [⟨[("/A", .Numeric 1)], 1⟩] }
      (some (.ObjectRef ⟨9, 0⟩)) []
      { kidsParser with currentObject := ⟨3, 0, []⟩, pages := [⟨[("/A", .Numeric 1)], 1⟩] }
      rfl
      ⟨⟨3, 0, [.Dictionary [("/A", .Numeric 1)]]⟩,
        { kidsParser with currentObject := ⟨3, 0, []⟩ }, [], rfl, rfl, rfl⟩
      rfl⟩

/-! ### The open sequence and encryption -/

/-- The method `readXrefTable` leaves the page list as it is. -/
theorem readXrefTable_pages {σ : Type} (rd : PDFTokenReader σ) (fuel : Nat) (p q : PDFParser σ)
    (offset : Int) (hq : (readXrefTable rd fuel p offset).parser = some q) :
    q.pages = p.pages := by
  unfold readXrefTable at hq
  rcases hs : rd.Seek p.reader offset 0 with ⟨⟨pos, e⟩, r⟩
  rw [hs] at hq
  cases e with
  | some err =>
    simp only [Outcome.parser, Option.some.injEq] at hq
    rw [← hq]
    rfl
  | none =>
    simp only at hq
    rcases hl : rd.ReadLinesToToken r "trailer" with ⟨⟨lines, ok⟩, r1⟩
    rw [hl] at hq
    cases ok with
    | false =>
      simp only [Outcome.parser, Option.some.injEq] at hq
      rw [← hq]
      rfl
    | true =>
      simp only at hq
      generalize xrefLines 1 (xrefInit p.xref offset) lines = out at hq
      obtain ⟨⟨c, x1⟩, err⟩ := out
      cases err with
      | some e1 =>
        simp only [Outcome.parser, Option.some.injEq] at hq
        rw [← hq]
      | none =>
        simp only at hq
        rcases hs2 : rd.Seek r1 offset 0 with ⟨⟨pos2, e2⟩, r2⟩
        rw [hs2] at hq
        cases e2 with
        | some err2 =>
          simp only [Outcome.parser, Option.some.injEq] at hq
          rw [← hq]
        | none =>
          simp only at hq
          rcases hk : rd.SkipToToken r2 "trailer" with ⟨found, r3⟩
          rw [hk] at hq
          cases found with
          | false =>
            simp only [Outcome.parser, Option.some.injEq] at hq
            rw [← hq]
          | true =>
            simp only at hq
            have hfr := readValue_onlyReader rd fuel
              ({ p with reader := (rd.ReadToken r3).2, xref := x1 } : PDFParser σ) none
            split at hq
            · next trailer p2 heq =>
              rw [heq] at hfr
              obtain ⟨r', hr'⟩ := hfr p2 rfl
              simp only [Outcome.parser, Option.some.injEq] at hq
              rw [← hq, hr']
              rfl
            · next v p2 _ heq =>
              rw [heq] at hfr
              obtain ⟨r', hr'⟩ := hfr p2 rfl
              simp only [Outcome.parser, Option.some.injEq] at hq
              rw [← hq, hr']
              rfl
            · next p2 heq =>
              rw [heq] at hfr
              obtain ⟨r', hr'⟩ := hfr p2 rfl
              simp only [Outcome.parser, Option.some.injEq] at hq
              rw [← hq, hr']
              rfl
            · simp [Outcome.parser] at hq

/-- The method `readRoot` leaves the page list and the xref state as they are. -/
theorem readRoot_kept {σ : Type} (rd : PDFTokenReader σ) (fuel : Nat) (p q : PDFParser σ)
    (hq : (readRoot rd fuel p).parser = some q) : q.pages = p.pages ∧ q.xref = p.xref := by
  unfold readRoot at hq
  split at hq
  · rename_i rootRef _
    split at hq
    · have h1 : p = q := by simpa [Outcome.parser] using hq
      rw [← h1]
      exact ⟨rfl, rfl⟩
    · cases hres : resolveObject rd fuel p (some rootRef) with
      | outOfFuel =>
        rw [hres] at hq
        simp [Outcome.parser] at hq
      | panic p1 =>
        rw [hres] at hq
        have hk := resolveObject_kept rd fuel p p1 (some rootRef) (by rw [hres]; rfl)
        have h1 : p1 = q := by simpa [Outcome.parser] using hq
        rw [← h1]
        exact ⟨hk.1, hk.2.1⟩
      | ret v p1 =>
        rw [hres] at hq
        have hk := resolveObject_kept rd fuel p p1 (some rootRef) (by rw [hres]; rfl)
        cases v with
        | none =>
          have h1 : p1 = q := by simpa [Outcome.parser] using hq
          rw [← h1]
          exact ⟨hk.1, hk.2.1⟩
        | some root =>
          simp only at hq
          split at hq
          · simp only [Outcome.parser, Option.some.injEq] at hq
            rw [← hq]
            exact ⟨hk.1, hk.2.1⟩
          · have h1 : p1 = q := by simpa [Outcome.parser] using hq
            rw [← h1]
            exact ⟨hk.1, hk.2.1⟩
  · have h1 : p = q := by simpa [Outcome.parser] using hq
    rw [← h1]
    exact ⟨rfl, rfl⟩

/-- The encryption check where `readRoot` returns: `getEncryption` is true
exactly when the trailer has the key
`/Encrypt`; and when `readXrefTable` has left a trailer with that key, the
open sequence returns an error as soon as `readRoot` returns (with or without
an error of its own), it never returns without an error, and whatever way it
ends the page list is empty: `readPages` is never run. -/
theorem OpenPDFParser_encrypted {σ : Type} (rd : PDFTokenReader σ) (fuel : Nat) (reader r : σ)
    (offset : Int) (p1 : PDFParser σ)
    (hfind : rd.findXrefTable reader = ((offset, none), r))
    (hxref : readXrefTable rd fuel (newParser r) offset = .ret none p1)
    (henc : ∃ v, p1.xref.trailer.lookup "/Encrypt" = some v) :
    (∀ p : PDFParser σ, getEncryption p = true ↔ ∃ v, p.xref.trailer.lookup "/Encrypt" = some v)
    ∧ (∀ e p2, readRoot rd fuel p1 = .ret e p2 →
        ∃ err, OpenPDFParser rd fuel reader = .ret (some err) p2 ∧ p2.pages = [])
    ∧ (∀ q, OpenPDFParser rd fuel reader ≠ .ret none q)
    ∧ (∀ q, (OpenPDFParser rd fuel reader).parser = some q → q.pages = []) := by
  have hiff : ∀ p : PDFParser σ,
      getEncryption p = true ↔ ∃ v, p.xref.trailer.lookup "/Encrypt" = some v := by
    intro p
    unfold getEncryption
    rw [Option.isSome_iff_exists]
  have hp1 : p1.pages = [] :=
    readXrefTable_pages rd fuel (newParser r) p1 offset (by rw [hxref]; rfl)
  have hopen : OpenPDFParser rd fuel reader =
      match readRoot rd fuel p1 with
      | .ret (some err) p2 => .ret (some err) p2
      | .ret none p2 => .ret (some "File is encrypted!") p2
      | .panic p2 => .panic p2
      | .outOfFuel => .outOfFuel := by
    unfold OpenPDFParser
    rw [hfind]
    simp only [hxref]
    cases hr : readRoot rd fuel p1 with
    | outOfFuel => rfl
    | panic p2 => rfl
    | ret e p2 =>
      cases e with
      | some err => rfl
      | none =>
        have hk := readRoot_kept rd fuel p1 p2 (by rw [hr]; rfl)
        have h2 : getEncryption p2 = true := by
          rw [hiff, hk.2]
          exact henc
        simp only [h2, if_true]
  refine ⟨hiff, ?_, ?_, ?_⟩
  · intro e p2 hr
    have hk := readRoot_kept rd fuel p1 p2 (by rw [hr]; rfl)
    rw [hopen, hr]
    cases e with
    | some err => exact ⟨err, rfl, by rw [hk.1, hp1]⟩
    | none => exact ⟨"File is encrypted!", rfl, by rw [hk.1, hp1]⟩
  · intro q hq
    rw [hopen] at hq
    cases hr : readRoot rd fuel p1 with
    | outOfFuel =>
      rw [hr] at hq
      exact Outcome.noConfusion hq
    | panic p2 =>
      rw [hr] at hq
      exact Outcome.noConfusion hq
    | ret e p2 =>
      rw [hr] at hq
      cases e with
      | some err =>
        injection hq with h1 _
        exact Option.noConfusion h1
      | none =>
        injection hq with h1 _
        exact Option.noConfusion h1
  · intro q hq
    rw [hopen] at hq
    cases hr : readRoot rd fuel p1 with
    | outOfFuel =>
      rw [hr] at hq
      simp [Outcome.parser] at hq
    | panic p2 =>
      rw [hr] at hq
      have hk := readRoot_kept rd fuel p1 p2 (by rw [hr]; rfl)
      have h1 : p2 = q := by simpa [Outcome.parser] using hq
      rw [← h1, hk.1, hp1]
    | ret e p2 =>
      rw [hr] at hq
      have hk := readRoot_kept rd fuel p1 p2 (by rw [hr]; rfl)
      cases e with
      | some err =>
        have h1 : p2 = q := by simpa [Outcome.parser] using hq
        rw [← h1, hk.1, hp1]
      | none =>
        have h1 : p2 = q := by simpa [Outcome.parser] using hq
        rw [← h1, hk.1, hp1]

set_option maxRecDepth 20000 in
/-- An instance of `OpenPDFParser_encrypted`: on `encryptedSource` the trailer has
`/Encrypt`, `readRoot` stores the catalog, and the open sequence returns the
error `File is encrypted!` with an empty page list. -/
theorem OpenPDFParser_encrypted_witness :
    getEncryption encryptedParser = true
      ∧ readRoot byteReader 10 encryptedParser = .ret none encryptedParserRoot
      ∧ ∃ err, OpenPDFParser byteReader 10 ⟨encryptedSource.data, 0⟩
          = .ret (some err) encryptedParserRoot ∧ encryptedParserRoot.pages = [] :=
  ⟨rfl, rfl,
    (OpenPDFParser_encrypted byteReader 10 ⟨encryptedSource.data, 0⟩ ⟨encryptedSource.data, 134⟩
      34 encryptedParser rfl rfl ⟨.ObjectRef ⟨5, 0⟩, rfl⟩).2.1 none encryptedParserRoot rfl⟩

/-! ### resolveObject: the values of the declaration -/

theorem valuesBefore_take {σ : Type} (rd : PDFTokenReader σ) (fuel : Nat) (m n : Nat)
    (p : PDFParser σ) (hmn : m ≤ n) :
    (valuesBefore rd fuel n p).take m = valuesBefore rd fuel m p := by
  induction m generalizing n p with
  | zero => simp [valuesBefore]
  | succ m ih =>
    obtain ⟨n1, rfl⟩ : ∃ n1, n = n1 + 1 := ⟨n - 1, by omega⟩
    unfold valuesBefore
    split
    · split
      · rfl
      · rw [List.take_succ_cons, ih n1 _ (by omega)]
    · rfl

theorem valuesBefore_length {σ : Type} (rd : PDFTokenReader σ) (fuel : Nat) (n : Nat)
    (p : PDFParser σ) : (valuesBefore rd fuel n p).length ≤ n := by
  induction n generalizing p with
  | zero => simp [valuesBefore]
  | succ n ih =>
    unfold valuesBefore
    split
    · split
      · simp
      · simp only [List.length_cons]
        exact Nat.succ_le_succ (ih _)
    · simp

theorem valuesBefore_no_endobj {σ : Type} (rd : PDFTokenReader σ) (fuel : Nat) (n : Nat)
    (p : PDFParser σ) : ∀ v ∈ valuesBefore rd fuel n p, isToken v "endobj" = false := by
  induction n generalizing p with
  | zero => simp [valuesBefore]
  | succ n ih =>
    unfold valuesBefore
    split
    · split
      · simp
      · rename_i hend
        intro v hv
        rcases List.mem_cons.mp hv with h1 | h1
        · rw [h1]
          simpa using hend
        · exact ih _ v h1
    · simp

/-- The value loop returns what it had and the values before `endobj`, as far
as two values are not exceeded. -/
theorem readObjectValues_eq {σ : Type} (rd : PDFTokenReader σ) (F : Nat) (p q : PDFParser σ)
    (acc values : List Value) (h : readObjectValues rd F p acc = .ret values q)
    (f : Nat) (hf : F ≤ f) :
    values = acc ++ valuesBefore rd f (2 - acc.length) p := by
  induction F generalizing p acc with
  | zero => exact Outcome.noConfusion (by unfold readObjectValues at h; exact h)
  | succ F ih =>
    unfold readObjectValues at h
    cases hv : readValue rd F p none with
    | outOfFuel =>
      rw [hv] at h
      exact Outcome.noConfusion h
    | panic p1 =>
      rw [hv] at h
      exact Outcome.noConfusion h
    | ret value p1 =>
      have hv1 := readValue_fuel_le rd F f (by omega) _ _ _ _ hv
      rw [hv] at h
      cases value with
      | none =>
        injection h with h1 _
        rw [← h1]
        cases hlen : 2 - acc.length with
        | zero => simp [valuesBefore]
        | succ m => simp [valuesBefore, hv1]
      | some v =>
        simp only at h
        split at h
        · rename_i hlen
          injection h with h1 _
          have h2 : 2 - acc.length = 0 := by omega
          rw [← h1, h2]
          simp [valuesBefore]
        · rename_i hlen
          split at h
          · rename_i hend
            injection h with h1 _
            rw [← h1]
            cases hl : 2 - acc.length with
            | zero => simp [valuesBefore]
            | succ m => simp [valuesBefore, hv1, hend]
          · rename_i hend
            have hrec := ih p1 (acc ++ [v]) h (by omega)
            rw [hrec]
            obtain ⟨m, hm⟩ : ∃ m, 2 - acc.length = m + 1 := ⟨1 - acc.length, by omega⟩
            have hm2 : 2 - (acc ++ [v]).length = m := by
              simp only [List.length_append, List.length_singleton]
              omega
            rw [hm, hm2]
            simp [valuesBefore, hv1, hend]

theorem resolveBody_values {σ : Type} (rd : PDFTokenReader σ) (F : Nat) (p q : PDFParser σ)
    (h : ObjectRef) (originalOffset : Int) (decl : ObjectDeclaration)
    (hb : resolveBody rd F p (some (.ObjectRef h)) originalOffset = .ret (some decl) q)
    (f : Nat) (hf : F ≤ f) :
    decl.Values = valuesBefore rd f 2 { p with currentObject := ⟨h.Obj, h.Gen, []⟩ } := by
  unfold resolveBody at hb
  simp only at hb
  cases hv : readObjectValues rd F { p with currentObject := ⟨h.Obj, h.Gen, []⟩ } [] with
  | outOfFuel =>
    rw [hv] at hb
    exact Outcome.noConfusion hb
  | panic p1 =>
    rw [hv] at hb
    exact Outcome.noConfusion hb
  | ret values p1 =>
    rw [hv] at hb
    injection hb with h1 _
    injection h1 with h2
    rw [← h2]
    have := readObjectValues_eq rd F _ p1 [] values hv f hf
    simpa using this

/-- C19: when `resolveObject` returns a declaration for an ObjectRef, value
reading started at the parser `behindHeader`, and the values of the
declaration are the values decoded from there before the first `endobj` token
(or the first decode without a value), cut to the first two; so there are at
most two and `endobj` is none of them. -/
theorem resolveObject_values {σ : Type} (rd : PDFTokenReader σ) (F : Nat) (p q : PDFParser σ)
    (objRef : ObjectRef) (decl : ObjectDeclaration)
    (h : resolveObject rd F p (some (.ObjectRef objRef)) = .ret (some decl) q) :
    decl.Values.length ≤ 2
    ∧ (∀ v ∈ decl.Values, isToken v "endobj" = false)
    ∧ ∃ p1, behindHeader rd F p objRef = some p1
        ∧ ∀ f n, F ≤ f → 2 ≤ n → decl.Values = (valuesBefore rd f n p1).take 2 := by
  have key : ∃ p1, behindHeader rd F p objRef = some p1
      ∧ ∀ f, F ≤ f → decl.Values = valuesBefore rd f 2 p1 := by
    unfold resolveObject at h
    unfold behindHeader
    simp only at h
    cases hlook : p.xref.xref.lookup objRef with
    | none =>
      rw [hlook] at h
      injection h with h1 _
      exact Option.noConfusion h1
    | some offset =>
      rw [hlook] at h
      simp only at h ⊢
      cases hv : readValue rd F
          (p.withReader (rd.Seek (rd.Seek p.reader 0 1).2 offset 0).2) none with
      | outOfFuel =>
        rw [hv] at h
        exact Outcome.noConfusion h
      | panic p3 =>
        rw [hv] at h
        exact Outcome.noConfusion h
      | ret header p3 =>
        rw [hv] at h
        simp only at h
        have hpanic : ∀ (p0 : PDFParser σ) (hd : Option Value),
            (∀ r, hd ≠ some (.ObjectRef r)) →
            resolveBody rd F p0 hd (rd.Seek p.reader 0 1).1.1 ≠ .ret (some decl) q := by
          intro p0 hd hne hb
          unfold resolveBody at hb
          split at hb
          · rename_i r0
            exact hne r0 rfl
          · exact Outcome.noConfusion hb
        by_cases hd : ∃ r, header = some (.ObjectRef r)
        · obtain ⟨r0, rfl⟩ := hd
          simp only
          split at h
          · rename_i href
            rw [if_pos href]
            exact ⟨_, rfl, fun f hf => resolveBody_values rd F p3 q r0 _ decl h f hf⟩
          · rename_i href
            rw [if_neg href]
            split at h
            · exact ⟨_, rfl, fun f hf => resolveBody_values rd F _ q r0 _ decl h f hf⟩
            · injection h with h1 _
              exact Option.noConfusion h1
        · have hne : ∀ r, header ≠ some (.ObjectRef r) := fun r hr => hd ⟨r, hr⟩
          exfalso
          split at h
          · exact hpanic _ _ hne h
          · split at h
            · exact hpanic _ _ hne h
            · injection h with h1 _
              exact Option.noConfusion h1
  obtain ⟨p1, hp1, hvals⟩ := key
  refine ⟨?_, ?_, p1, hp1, ?_⟩
  · rw [hvals F (le_refl F)]
    exact valuesBefore_length rd F 2 p1
  · rw [hvals F (le_refl F)]
    exact valuesBefore_no_endobj rd F 2 p1
  · intro f n hf hn
    rw [valuesBefore_take rd f 2 n p1 hn]
    exact hvals f hf

/-- Witness of `resolveObject_values`: of the three values `5 6 7` of object 1
the declaration holds the first two. -/
theorem resolveObject_values_witness :
    resolveObject byteReader 10 threeValuesParser (some (.ObjectRef ⟨1, 0⟩))
        = .ret (some firstTwo) { threeValuesParser with currentObject := ⟨1, 0, []⟩ }
      ∧ firstTwo.Values.length ≤ 2
      ∧ (∀ v ∈ firstTwo.Values, isToken v "endobj" = false)
      ∧ ∃ p1, behindHeader byteReader 10 threeValuesParser ⟨1, 0⟩ = some p1
          ∧ ∀ f n, 10 ≤ f → 2 ≤ n →
            firstTwo.Values = (valuesBefore byteReader f n p1).take 2 :=
  ⟨rfl, resolveObject_values byteReader 10 threeValuesParser
    { threeValuesParser with currentObject := ⟨1, 0, []⟩ } ⟨1, 0⟩ firstTwo rfl⟩

/-! ### readValue: literal strings -/

theorem unescape_cons_ne (c : Char) (rest : List Char) (h : c ≠ '\\') :
    unescape (c :: rest) = c :: unescape rest := by
  rw [unescape]
  intro b r heq _
  exact h heq

theorem escapesComplete_cons_ne (c : Char) (rest : List Char) (h : c ≠ '\\') :
    escapesComplete (c :: rest) = escapesComplete rest := by
  rw [escapesComplete]
  · intro b r heq _
    exact h heq
  · intro heq _
    exact h heq

/-- The byte loop of the literal-string case on a finite byte source: with a
counter above 0 it reads to the end of the source. -/
theorem readString_reads_all {σ : Type} (rd : PDFTokenReader σ) (remaining : σ → List Char)
    (laws : ByteLaws rd remaining) (fuel : Nat) (p : PDFParser σ) (n : Int)
    (buf bytes : List Char) (hrem : remaining p.reader = bytes)
    (hesc : escapesComplete bytes = true) (hn : 0 < n) (hfuel : bytes.length < fuel) :
    ∃ q, readString rd fuel p n buf
        = .ret (some (.String (String.mk (buf ++ unescape bytes)))) q
      ∧ remaining q.reader = [] := by
  induction fuel generalizing p n buf bytes with
  | zero => exact absurd hfuel (Nat.not_lt_zero _)
  | succ fuel ih =>
    unfold readString
    rw [if_pos hn]
    cases bytes with
    | nil =>
      obtain ⟨h1, h2⟩ := laws.eof _ hrem
      rcases hrb : rd.ReadByte p.reader with ⟨⟨b, ok⟩, r⟩
      rw [hrb] at h1 h2
      simp only at h1 h2
      subst h1
      exact ⟨p.withReader r, by simp [unescape], h2⟩
    | cons b bs =>
      obtain ⟨h1, h2⟩ := laws.next _ b bs hrem
      rcases hrb : rd.ReadByte p.reader with ⟨⟨b1, ok⟩, r⟩
      rw [hrb] at h1 h2
      simp only at h1 h2
      injection h1 with hb hok
      subst hb hok
      simp only
      have hlen : bs.length < fuel := by
        simp only [List.length_cons] at hfuel
        omega
      by_cases hopen : b1 = '('
      · rw [if_pos hopen]
        have hne : b1 ≠ '\\' := by rw [hopen]; decide
        rw [escapesComplete_cons_ne b1 bs hne] at hesc
        obtain ⟨q, hq, hq2⟩ := ih (p.withReader r) (n + 1) (buf ++ [b1]) bs h2 hesc (by omega) hlen
        exact ⟨q, by rw [hq, unescape_cons_ne b1 bs hne]; simp, hq2⟩
      · rw [if_neg hopen]
        by_cases hclose : b1 = ')'
        · rw [if_pos hclose]
          have hne : b1 ≠ '\\' := by rw [hclose]; decide
          rw [escapesComplete_cons_ne b1 bs hne] at hesc
          obtain ⟨q, hq, hq2⟩ :=
            ih (p.withReader r) (n + 1) (buf ++ [b1]) bs h2 hesc (by omega) hlen
          exact ⟨q, by rw [hq, unescape_cons_ne b1 bs hne]; simp, hq2⟩
        · rw [if_neg hclose]
          by_cases hback : b1 = '\\'
          · rw [if_pos hback]
            subst hback
            cases bs with
            | nil => exact absurd hesc (by decide)
            | cons b2 rest =>
              obtain ⟨h3, h4⟩ := laws.next r b2 rest h2
              rcases hrb2 : rd.ReadByte r with ⟨⟨b3, ok3⟩, r2⟩
              rw [hrb2] at h3 h4
              simp only at h3 h4
              injection h3 with hb3 _
              subst hb3
              have hesc2 : escapesComplete rest = true := by
                rw [escapesComplete] at hesc
                exact hesc
              have hlen2 : rest.length < fuel := by
                simp only [List.length_cons] at hlen
                omega
              obtain ⟨q, hq, hq2⟩ :=
                ih (p.withReader r2) n (buf ++ [b3]) rest h4 hesc2 hn hlen2
              exact ⟨q, by simp only [hrb2]; rw [hq, unescape]; simp, hq2⟩
          · rw [if_neg hback]
            rw [escapesComplete_cons_ne b1 bs hback] at hesc
            obtain ⟨q, hq, hq2⟩ := ih (p.withReader r) n (buf ++ [b1]) bs h2 hesc hn hlen
            exact ⟨q, by rw [hq, unescape_cons_ne b1 bs hback]; simp, hq2⟩

/-- The byte loop of the literal-string case on a finite byte source, whatever
the bytes: with a counter above 0 it returns only at the end of the source. -/
theorem readString_consumes_all {σ : Type} (rd : PDFTokenReader σ) (remaining : σ → List Char)
    (laws : ByteLaws rd remaining) (fuel : Nat) (p : PDFParser σ) (n : Int)
    (buf bytes : List Char) (hrem : remaining p.reader = bytes) (hn : 0 < n)
    (hfuel : bytes.length < fuel) :
    ∃ str q, readString rd fuel p n buf = .ret (some (.String str)) q
      ∧ remaining q.reader = [] := by
  induction fuel generalizing p n buf bytes with
  | zero => exact absurd hfuel (Nat.not_lt_zero _)
  | succ fuel ih =>
    unfold readString
    rw [if_pos hn]
    cases bytes with
    | nil =>
      obtain ⟨h1, h2⟩ := laws.eof _ hrem
      rcases hrb : rd.ReadByte p.reader with ⟨⟨b, ok⟩, r⟩
      rw [hrb] at h1 h2
      simp only at h1 h2
      subst h1
      exact ⟨_, p.withReader r, rfl, h2⟩
    | cons b bs =>
      obtain ⟨h1, h2⟩ := laws.next _ b bs hrem
      rcases hrb : rd.ReadByte p.reader with ⟨⟨b1, ok⟩, r⟩
      rw [hrb] at h1 h2
      simp only at h1 h2
      injection h1 with hb hok
      subst hb hok
      simp only
      have hlen : bs.length < fuel := by
        simp only [List.length_cons] at hfuel
        omega
      by_cases hopen : b1 = '('
      · rw [if_pos hopen]
        exact ih (p.withReader r) (n + 1) _ bs h2 (by omega) hlen
      · rw [if_neg hopen]
        by_cases hclose : b1 = ')'
        · rw [if_pos hclose]
          exact ih (p.withReader r) (n + 1) _ bs h2 (by omega) hlen
        · rw [if_neg hclose]
          by_cases hback : b1 = '\\'
          · rw [if_pos hback]
            cases bs with
            | nil =>
              obtain ⟨_, h4⟩ := laws.eof r h2
              exact ih (p.withReader (rd.ReadByte r).2) n _ [] h4 hn (by simp; omega)
            | cons b2 rest =>
              obtain ⟨_, h4⟩ := laws.next r b2 rest h2
              have hlen2 : rest.length < fuel := by
                simp only [List.length_cons] at hlen
                omega
              exact ih (p.withReader (rd.ReadByte r).2) n _ rest h4 hn hlen2
          · rw [if_neg hback]
            exact ih (p.withReader r) n _ bs h2 hn hlen

/-- C20: on the token `(` (handed in, or read when `nil` is handed in) and a
finite byte source with the bytes `bytes` left, `readValue` with more fuel
than bytes returns a String only at the end of the source, every remaining
byte consumed (the counter starts at 1 and no `)` brings it to 0); and when
every backslash is followed by a byte, the String is all of `bytes` with each
escaping backslash dropped and the byte after it kept. -/
theorem readValue_string_reads_all {σ : Type} (rd : PDFTokenReader σ)
    (remaining : σ → List Char) (laws : ByteLaws rd remaining) (fuel : Nat)
    (p p1 : PDFParser σ) (arg : Option String) (bytes : List Char)
    (hfetch : fetchToken rd p arg = (some "(", p1))
    (hrem : remaining p1.reader = bytes) (hfuel : bytes.length + 1 < fuel) :
    (∃ str q, readValue rd fuel p arg = .ret (some (.String str)) q ∧ remaining q.reader = [])
    ∧ (escapesComplete bytes = true →
        ∃ q, readValue rd fuel p arg = .ret (some (.String (String.mk (unescape bytes)))) q
          ∧ remaining q.reader = []) := by
  obtain ⟨fuel1, rfl⟩ : ∃ fuel1, fuel = fuel1 + 1 := ⟨fuel - 1, by omega⟩
  have hread : readValue rd (fuel1 + 1) p arg = readString rd fuel1 p1 1 [] := by
    unfold readValue
    simp only [hfetch, Option.getD_some]
    rw [if_neg (by decide), if_neg (by decide), if_neg (by decide), if_pos True.intro]
  rw [hread]
  constructor
  · exact readString_consumes_all rd remaining laws fuel1 p1 1 [] bytes hrem (by decide)
      (by omega)
  · intro hesc
    obtain ⟨q, hq, hq2⟩ := readString_reads_all rd remaining laws fuel1 p1 1 [] bytes hrem hesc
      (by decide) (by omega)
    exact ⟨q, by rw [hq]; simp, hq2⟩

/-- The concrete reader reads bytes as a finite byte source does. -/
theorem byteReader_laws : ByteLaws byteReader ByteReader.rest := by
  constructor
  · intro s hs
    have h : byteReader.ReadByte s = (('\x00', false), s) := by
      show ByteReader.ReadByte s = _
      unfold ByteReader.ReadByte
      rw [hs]
    rw [h]
    exact ⟨rfl, hs⟩
  · intro s b bs hs
    have h : byteReader.ReadByte s = ((b, true), { s with pos := s.pos + 1 }) := by
      show ByteReader.ReadByte s = _
      unfold ByteReader.ReadByte
      rw [hs]
    rw [h]
    refine ⟨rfl, ?_⟩
    unfold ByteReader.rest at hs ⊢
    simp only
    rw [← List.drop_drop, hs]
    rfl

/-- Witness of `readValue_string_reads_all`: on `(a (nested) string) 7` the
String holds all 20 bytes behind the opening parenthesis, and on `(a\)b) c`
the backslash is dropped and the rest kept. -/
theorem readValue_string_reads_all_witness :
    (∃ q, readValue byteReader 40 (freshParser "(a (nested) string) 7" 0) none
        = .ret (some (.String (String.mk (unescape "a (nested) string) 7".data)))) q
      ∧ q.reader.rest = [])
    ∧ unescape "a (nested) string) 7".data = "a (nested) string) 7".data
    ∧ (∃ q, readValue byteReader 40 (freshParser "(a\\)b) c" 0) none
        = .ret (some (.String (String.mk (unescape "a\\)b) c".data)))) q
      ∧ q.reader.rest = [])
    ∧ unescape "a\\)b) c".data = "a)b) c".data :=
  ⟨(readValue_string_reads_all byteReader ByteReader.rest byteReader_laws 40
      (freshParser "(a (nested) string) 7" 0) (freshParser "(a (nested) string) 7" 1) none
      "a (nested) string) 7".data rfl rfl (by decide)).2 (by decide),
    by decide,
    (readValue_string_reads_all byteReader ByteReader.rest byteReader_laws 40
      (freshParser "(a\\)b) c" 0) (freshParser "(a\\)b) c" 1) none
      "a\\)b) c".data rfl rfl (by decide)).2 (by decide),
    by decide⟩

/-! ### Composite values that hold a literal string -/

/-- C11: on `<< /K (v) >>` the value of `/K` is a literal string, whose scan
runs to the end of the source (`v) >>`), so the next key token is `nil` and
`readValue` returns `nil`, not the Dictionary with `/K`. -/
theorem readValue_dictionary_string_value :
    readValue byteReader 20 (freshParser stringDictSource 6) none
        = .ret (some (.String "v) >>")) (freshParser stringDictSource 12)
      ∧ readValue byteReader 20 (freshParser stringDictSource 0) none
        = .ret none (freshParser stringDictSource 12) :=
  ⟨rfl, rfl⟩

/-- The byte loop of the literal-string case on a finite byte source, with any
fuel: it runs out of fuel or returns at the end of the source. -/
theorem readString_ends_at_eof {σ : Type} (rd : PDFTokenReader σ) (remaining : σ → List Char)
    (laws : ByteLaws rd remaining) (fuel : Nat) (p : PDFParser σ) (n : Int)
    (buf bytes : List Char) (hrem : remaining p.reader = bytes) (hn : 0 < n) :
    readString rd fuel p n buf = .outOfFuel
      ∨ ∃ str q, readString rd fuel p n buf = .ret (some (.String str)) q
          ∧ remaining q.reader = [] := by
  induction fuel generalizing p n buf bytes with
  | zero => exact Or.inl rfl
  | succ fuel ih =>
    unfold readString
    rw [if_pos hn]
    cases bytes with
    | nil =>
      obtain ⟨h1, h2⟩ := laws.eof _ hrem
      rcases hrb : rd.ReadByte p.reader with ⟨⟨b, ok⟩, r⟩
      rw [hrb] at h1 h2
      simp only at h1 h2
      subst h1
      exact Or.inr ⟨_, p.withReader r, rfl, h2⟩
    | cons b bs =>
      obtain ⟨h1, h2⟩ := laws.next _ b bs hrem
      rcases hrb : rd.ReadByte p.reader with ⟨⟨b1, ok⟩, r⟩
      rw [hrb] at h1 h2
      simp only at h1 h2
      injection h1 with hb hok
      subst hb hok
      simp only
      by_cases hopen : b1 = '('
      · rw [if_pos hopen]
        exact ih (p.withReader r) (n + 1) _ bs h2 (by omega)
      · rw [if_neg hopen]
        by_cases hclose : b1 = ')'
        · rw [if_pos hclose]
          exact ih (p.withReader r) (n + 1) _ bs h2 (by omega)
        · rw [if_neg hclose]
          by_cases hback : b1 = '\\'
          · rw [if_pos hback]
            cases bs with
            | nil =>
              obtain ⟨_, h4⟩ := laws.eof r h2
              exact ih (p.withReader (rd.ReadByte r).2) n _ [] h4 hn
            | cons b2 rest =>
              obtain ⟨_, h4⟩ := laws.next r b2 rest h2
              exact ih (p.withReader (rd.ReadByte r).2) n _ rest h4 hn
          · rw [if_neg hback]
            exact ih (p.withReader r) n _ bs h2 hn

/-- At the end of the source the concrete reader gives the `nil` token and
stays at the end. -/
theorem ReadToken_at_end (r : ByteReader) (h : r.rest = []) :
    (byteReader.ReadToken r).1 = none ∧ (byteReader.ReadToken r).2.rest = [] := by
  have hrt : byteReader.ReadToken r = (none, { r with pos := max r.pos r.data.length }) := by
    show ByteReader.ReadToken r = _
    unfold ByteReader.ReadToken
    rw [h]
    rfl
  rw [hrt]
  refine ⟨rfl, ?_⟩
  unfold ByteReader.rest
  exact List.drop_eq_nil_of_le (le_max_right _ _)

/-- At the end of the source `readValue` returns the `nil` token as a value and
stays at the end. -/
theorem readValue_at_end (fuel : Nat) (p : PDFParser ByteReader) (h : p.reader.rest = []) :
    ∃ q, readValue byteReader (fuel + 1) p none = .ret (some (.Token "")) q
      ∧ q.reader.rest = [] := by
  obtain ⟨h1, h2⟩ := ReadToken_at_end p.reader h
  refine ⟨p.withReader (byteReader.ReadToken p.reader).2, ?_, h2⟩
  unfold readValue
  simp only [fetchToken, h1, Option.getD_none]
  rfl

/-- At the end of the source the array loop never finds `]`: it runs out of
any fuel. -/
theorem readArray_at_end (fuel : Nat) (p : PDFParser ByteReader) (acc : List (Option Value))
    (h : p.reader.rest = []) : readArray byteReader fuel p acc = .outOfFuel := by
  induction fuel generalizing p acc with
  | zero => rfl
  | succ fuel ih =>
    obtain ⟨h1, h2⟩ := ReadToken_at_end p.reader h
    unfold readArray
    rcases hrt : byteReader.ReadToken p.reader with ⟨token, r⟩
    rw [hrt] at h1 h2
    simp only at h1 h2
    subst h1
    simp only [reduceCtorEq, if_false]
    cases fuel with
    | zero => rfl
    | succ fuel1 =>
      obtain ⟨q, hq, hq2⟩ := readValue_at_end fuel1 (p.withReader r) h2
      rw [hq]
      exact ih q _ hq2

/-- C12: on `[(a) 1]` the first element is a literal string, whose scan runs
to the end of the source and swallows `]`; the array loop then reads the `nil`
token for ever, so `readValue` returns with no amount of fuel. -/
theorem readValue_array_string_never_returns (fuel : Nat) :
    readValue byteReader fuel (freshParser stringArraySource 0) none = .outOfFuel := by
  cases fuel with
  | zero => rfl
  | succ f1 =>
    have h1 : readValue byteReader (f1 + 1) (freshParser stringArraySource 0) none
        = readArray byteReader f1 (freshParser stringArraySource 1) [] := rfl
    rw [h1]
    cases f1 with
    | zero => rfl
    | succ f2 =>
      have hrt : byteReader.ReadToken (freshParser stringArraySource 1).reader
          = (some "(", ⟨stringArraySource.data, 2⟩) := rfl
      have hne : ¬ ((some "(" : Option String) = some "]") := by decide
      rw [readArray]
      simp only [hrt, hne, if_false]
      cases f2 with
      | zero => rfl
      | succ f3 =>
        have h3 : readValue byteReader (f3 + 1)
            ((freshParser stringArraySource 1).withReader ⟨stringArraySource.data, 2⟩) (some "(")
            = readString byteReader f3 (freshParser stringArraySource 2) 1 [] := rfl
        rw [h3]
        rcases readString_ends_at_eof byteReader ByteReader.rest byteReader_laws f3
            (freshParser stringArraySource 2) 1 [] _ rfl (by decide) with hout | ⟨str, q, hq, hq2⟩
        · rw [hout]
        · rw [hq]
          exact readArray_at_end (f3 + 1) q _ hq2

/-! ### Crashes on the way to a promised error -/

/-- C15: with kids `3 0 R`, where object 3 is the number 7, and `9 0 R`, which
the xref map does not hold, `readPages` does not return an error for the kid
that does not resolve: it panics at the first kid on
`pageObj.Values[0].(Dictionary)`. -/
theorem readPages_panics_before_lost_kid :
    (resolveObject byteReader 10 numberKidParser (some (.ObjectRef ⟨9, 0⟩))).value = some none
      ∧ (resolveObject byteReader 10 numberKidParser (some (.ObjectRef ⟨3, 0⟩))).value
        = some (some ⟨3, 0, [.Numeric 7]⟩)
      ∧ (readPages byteReader 10 numberKidParser lostKid).panicked = true
      ∧ (readPages byteReader 10 numberKidParser lostKid).value = none :=
  ⟨rfl, rfl, rfl, rfl⟩

set_option maxRecDepth 20000 in
/-- C16: on `encryptedBadRootSource` the trailer that `readXrefTable` leaves
has `/Encrypt`, and the open sequence does not return an error: `readRoot`,
which runs before the encryption check, panics on the root object `7`. -/
theorem OpenPDFParser_encrypted_panics :
    readXrefTable byteReader 10 (newParser ⟨encryptedBadRootSource.data, 117⟩) 17
        = .ret none encryptedBadRootParser
      ∧ getEncryption encryptedBadRootParser = true
      ∧ (readRoot byteReader 10 encryptedBadRootParser).panicked = true
      ∧ (OpenPDFParser byteReader 10 ⟨encryptedBadRootSource.data, 0⟩).panicked = true
      ∧ (OpenPDFParser byteReader 10 ⟨encryptedBadRootSource.data, 0⟩).value = none := by
  have hf : byteReader.findXrefTable ⟨encryptedBadRootSource.data, 0⟩
      = ((17, none), ⟨encryptedBadRootSource.data, 117⟩) := rfl
  have hx : readXrefTable byteReader 10 (newParser ⟨encryptedBadRootSource.data, 117⟩) 17
      = .ret none encryptedBadRootParser := rfl
  have hr : (readRoot byteReader 10 encryptedBadRootParser).panicked = true := rfl
  have key : ∃ q, OpenPDFParser byteReader 10 ⟨encryptedBadRootSource.data, 0⟩ = .panic q := by
    unfold OpenPDFParser
    rw [hf]
    simp only []
    rw [hx]
    simp only []
    cases h : readRoot byteReader 10 encryptedBadRootParser with
    | ret e q => rw [h] at hr; cases hr
    | panic q => exact ⟨q, rfl⟩
    | outOfFuel => rw [h] at hr; cases hr
  obtain ⟨q, hq⟩ := key
  exact ⟨hx, rfl, hr, by rw [hq]; rfl, by rw [hq]; rfl⟩
end Gofpdi
